import Mathlib

/-!
# Erasure-coded request splitting (`src/object/srv_ec.c`)

A shallow embedding of `obj_ec_rw_req_split` and of the data it reads and
writes, followed by theorems about it.

Conventions of the embedding.

* Machine integers are `Nat` (or `Int` for the C `int`), with the wrap-around of
  the C type written out (`% 2 ^ 32`, `% 2 ^ 64`) at every operation of the source
  that can wrap.
* A C pointer into an array is the array together with an element offset
  (`ArrPtr`); `NULL` is `none`.  A trimmed view is therefore the same array with
  another offset, exactly as in the source (no copy).
* `D_ASSERT` failures and undefined behaviour of C (reading an array outside its
  bounds, forming a pointer outside the array object, `setbit` outside the
  bitmap) end the execution without a return value: `Fail.assertion` and
  `Fail.undefined`.
* Everything of the repository that `srv_ec.c` uses but that is declared in
  headers or other files (constants, structure sizes, the allocator's success,
  `obj_ec_tgt_oiod_init`, `obj_ec_tgt_oiod_get`) is a field of `Env`.
-/

namespace SrvEc

/-! ## Failure modes and elementary C operations -/

/-- Ways in which an execution ends without returning. -/
inductive Fail where
  | assertion
  | undefined
  deriving DecidableEq, Repr

/-- The macro `D_ASSERT(cond)`. -/
def D_ASSERT (c : Bool) : Except Fail Unit :=
  if c then .ok () else .error .assertion

/-- Reading `a[i]`; outside the array the behaviour is undefined. -/
def rd {α : Type} (a : List α) (i : Nat) : Except Fail α :=
  match a[i]? with
  | some x => .ok x
  | none => .error .undefined

/-- Truncation to `uint32_t`. -/
def u32 (x : Nat) : Nat := x % 2 ^ 32

/-- Truncation to `uint64_t` (`daos_size_t`, `size_t`). -/
def u64 (x : Nat) : Nat := x % 2 ^ 64

/-- Subtraction `a - b` of two `uint32_t`. -/
def u32_sub (a b : Nat) : Nat := (u32 a + 2 ^ 32 - u32 b) % 2 ^ 32

/-- Conversion of a `uint32_t` to `int` (as in `int idx = siod->siod_idx`). -/
def int_of_u32 (v : Nat) : Int :=
  if u32 v < 2 ^ 31 then (u32 v : Int) else (u32 v : Int) - 2 ^ 32

/-- The macro `roundup(x, y)` on `daos_size_t`. -/
def roundup (x y : Nat) : Nat := u64 (u64 (x + (y - 1)) / y * y)

/-- A pointer into an array: the array object and the element offset. -/
structure ArrPtr (α : Type) where
  base : List α
  off : Nat
  deriving DecidableEq, Repr

/-- The expression `&p[idx]`: defined when the result stays inside the array
object (one past the end included). -/
def ArrPtr.addr {α : Type} (p : ArrPtr α) (idx : Int) : Except Fail (ArrPtr α) :=
  if 0 ≤ (p.off : Int) + idx ∧ (p.off : Int) + idx ≤ (p.base.length : Int) then
    .ok ⟨p.base, ((p.off : Int) + idx).toNat⟩
  else .error .undefined

/-- The `n` elements a pointer designates. -/
def ArrPtr.view {α : Type} (p : ArrPtr α) (n : Nat) : List α :=
  (p.base.drop p.off).take n

/-! ## Data model -/

/-- Record extent `daos_recx_t`. -/
structure daos_recx_t where
  rx_idx : Nat
  rx_nr : Nat
  deriving DecidableEq, Repr

/-- Key buffer descriptor `d_iov_t` (the type of `iod_name`). -/
structure d_iov_t where
  iov_buf : Nat
  iov_buf_len : Nat
  iov_len : Nat
  deriving DecidableEq, Repr

/-- Type tag `daos_iod_type_t`. -/
inductive daos_iod_type_t where
  | DAOS_IOD_NONE
  | DAOS_IOD_SINGLE
  | DAOS_IOD_ARRAY
  deriving DecidableEq, Repr

/-- I/O descriptor `daos_iod_t`: the fields the split reads or writes. -/
structure daos_iod_t where
  iod_name : d_iov_t
  iod_type : daos_iod_type_t
  iod_size : Nat
  iod_nr : Nat
  iod_recxs : Option (ArrPtr daos_recx_t)
  deriving DecidableEq, Repr

/-- Checksum info `struct dcs_csum_info`; `cs_csum` is the address of the
checksum bytes. -/
structure dcs_csum_info where
  cs_csum : Nat
  cs_nr : Nat
  cs_type : Nat
  cs_len : Nat
  cs_buf_len : Nat
  cs_chunksize : Nat
  deriving DecidableEq, Repr

/-- A value of type `struct dcs_csum_info *`: `NULL`, a pointer into a caller's
array of checksum infos, or the address of slot `i` of the split request's own
`osr_singv_cis` array. -/
inductive ci_ptr where
  | null
  | data (p : ArrPtr dcs_csum_info)
  | singv (i : Nat)
  deriving DecidableEq, Repr

/-- Per-IOD checksum entry `struct dcs_iod_csums`. -/
structure dcs_iod_csums where
  ic_akey : dcs_csum_info
  ic_data : ci_ptr
  ic_nr : Nat
  deriving DecidableEq, Repr

/-- Shard I/O descriptor `struct obj_shard_iod`. -/
structure obj_shard_iod where
  siod_tgt_idx : Nat
  siod_idx : Nat
  siod_nr : Nat
  siod_off : Nat
  deriving DecidableEq, Repr

/-- Object I/O descriptor `struct obj_io_desc`. -/
structure obj_io_desc where
  oiod_nr : Nat
  oiod_flags : Nat
  oiod_siods : List obj_shard_iod
  deriving DecidableEq, Repr

/-- Target I/O descriptor `struct obj_tgt_oiod`. -/
structure obj_tgt_oiod where
  oto_tgt_idx : Nat
  oto_offs : List Nat
  oto_oiods : List obj_io_desc
  deriving DecidableEq, Repr

/-- Forward target `struct daos_shard_tgt` (the field the split reads). -/
structure daos_shard_tgt where
  st_shard : Nat
  deriving DecidableEq, Repr

/-- The field `orw_oid` (`daos_unit_oid_t`), reduced to the shard index. -/
structure daos_unit_oid_t where
  id_shard : Nat
  deriving DecidableEq, Repr

/-- The field `orw_iod_array` (`struct obj_iod_array`). -/
structure obj_iod_array where
  oia_iods : List daos_iod_t
  oia_oiods : Option (List obj_io_desc)
  oia_iod_csums : Option (List dcs_iod_csums)
  deriving DecidableEq, Repr

/-- The field `orw_shard_tgts` (`struct crt_array`). -/
structure crt_array where
  ca_count : Nat
  ca_arrays : List daos_shard_tgt
  deriving DecidableEq, Repr

/-- The request `struct obj_rw_in`, reduced to the fields the split reads. -/
structure obj_rw_in where
  orw_oid : daos_unit_oid_t
  orw_start_shard : Nat
  orw_nr : Nat
  orw_iod_array : obj_iod_array
  orw_shard_tgts : crt_array
  deriving DecidableEq, Repr

/-- The split request `struct obj_ec_split_req`.  The three arrays live in the
request's own block; `osr_iod_csums` and `osr_singv_cis` stay `NULL` when the
request carries no checksums. -/
structure obj_ec_split_req where
  osr_start_shard : Nat
  osr_iods : List daos_iod_t
  osr_offs : List Nat
  osr_iod_csums : Option (List dcs_iod_csums)
  osr_singv_cis : Option (List dcs_csum_info)
  osr_tgt_oiods : List obj_tgt_oiod
  deriving DecidableEq, Repr

/-- What `srv_ec.c` takes from the rest of the repository. -/
structure Env where
  OBJ_TGT_BITMAP_LEN : Nat
  OBJ_SIOD_SINGV : Nat
  DER_NOMEM : Nat
  sizeof_obj_ec_split_req : Nat
  sizeof_daos_iod_t : Nat
  sizeof_dcs_iod_csums : Nat
  sizeof_dcs_csum_info : Nat
  D_ALLOC : Nat → Bool
  obj_ec_tgt_oiod_init :
    List obj_io_desc → Nat → List Nat → Nat → Nat → Option (List obj_tgt_oiod)
  obj_ec_tgt_oiod_get : List obj_tgt_oiod → Nat → Nat → Option obj_tgt_oiod

/-- Calls that allocate or release memory, in program order. -/
inductive Event where
  | alloc (size : Nat) (ok : Bool)
  | tgt_oiod_init (bitmap : List Nat) (tgt_max_idx tgt_nr : Nat) (ok : Bool)
  | free_buf
  | tgt_oiod_fini (tgt_oiods : Option (List obj_tgt_oiod))
  deriving DecidableEq, Repr

/-- How a call ended. -/
inductive Outcome where
  | returned (rc : Int)
  | aborted (f : Fail)
  deriving DecidableEq, Repr

/-- A complete execution of `obj_ec_rw_req_split`: how it ended, the value
stored through `split_req` (`none` when nothing was stored), and the
allocator-related calls it made. -/
structure Run where
  outcome : Outcome
  split_req : Option obj_ec_split_req
  trace : List Event
  deriving DecidableEq, Repr

/-! ## The target bitmap -/

/-- The macro `setbit(a, i)` on a `uint8_t` array (`NBBY = 8`). -/
def setbit (a : List Nat) (i : Nat) : Except Fail (List Nat) :=
  match a[i / 8]? with
  | some b => .ok (a.set (i / 8) ((b ||| (1 <<< (i % 8))) % 256))
  | none => .error .undefined

/-- Whether bit `i` of a bitmap is set. -/
def bit_at (a : List Nat) (i : Nat) : Bool :=
  (a.getD (i / 8) 0).testBit (i % 8)

/-- Number of set bits of a bitmap. -/
def popcount (a : List Nat) : Nat :=
  ((List.range (8 * a.length)).filter (bit_at a)).length

/-- The loop of lines 95-99, from index `i` for `n` more iterations. -/
def fw_tgts_loop (fw_tgts : List daos_shard_tgt) (start_shard tgt_max_idx : Nat) :
    Nat → Nat → List Nat → Except Fail (List Nat)
  | _, 0, bm => .ok bm
  | i, n + 1, bm =>
    match rd fw_tgts i with
    | .error e => .error e
    | .ok t =>
      let tgt_idx := u32_sub t.st_shard start_shard
      match D_ASSERT (decide (tgt_idx < tgt_max_idx)) with
      | .error e => .error e
      | .ok _ =>
        match setbit bm tgt_idx with
        | .error e => .error e
        | .ok bm1 => fw_tgts_loop fw_tgts start_shard tgt_max_idx (i + 1) n bm1

/-- Line 56: `uint32_t tgt_nr = orw->orw_shard_tgts.ca_count`. -/
def tgt_nr (orw : obj_rw_in) : Nat := u32 orw.orw_shard_tgts.ca_count

/-- Line 75: `tgt_max_idx = orw->orw_oid.id_shard - start_shard`, the leader's
offset from the start shard. -/
def tgt_max_idx (orw : obj_rw_in) : Nat :=
  u32_sub orw.orw_oid.id_shard orw.orw_start_shard

/-- Lines 62 and 95-100: the bitmap starts cleared, receives one bit per forward
target and finally the leader's bit. -/
def build_bitmap (env : Env) (orw : obj_rw_in) : Except Fail (List Nat) :=
  match fw_tgts_loop orw.orw_shard_tgts.ca_arrays orw.orw_start_shard (tgt_max_idx orw) 0
      (tgt_nr orw) (List.replicate env.OBJ_TGT_BITMAP_LEN 0) with
  | .error e => .error e
  | .ok bm => setbit bm (tgt_max_idx orw)

/-! ## The per-IOD loop -/

/-- A zero-filled `struct dcs_csum_info` (the block comes from `D_ALLOC`, which
clears it). -/
def dcs_csum_info.zero : dcs_csum_info := ⟨0, 0, 0, 0, 0, 0⟩

/-- The expression `&ic_data[idx]`. -/
def ci_ptr.addr (p : ci_ptr) (idx : Int) : Except Fail ci_ptr :=
  match p with
  | .data q =>
    match q.addr idx with
    | .ok r => .ok (.data r)
    | .error e => .error e
  | .null => if idx = 0 then .ok .null else .error .undefined
  | .singv i => if idx = 0 then .ok (.singv i) else .error .undefined

/-- Reading `ic_data[0]` of a checksum entry of the incoming request. -/
def ci_ptr.rd0 (p : ci_ptr) : Except Fail dcs_csum_info :=
  match p with
  | .data q => rd q.base q.off
  | _ => .error .undefined

/-- The single-value branch for checksums, lines 131-147: the trimmed entry
(already a copy of the original) and the content of slot `i` of
`osr_singv_cis`. -/
def split_singv_csum (tgt_max_idx i : Nat) (split_iod_csum : dcs_iod_csums) :
    Except Fail (dcs_iod_csums × dcs_csum_info) :=
  match D_ASSERT (decide (split_iod_csum.ic_nr = 1)) with
  | .error e => .error e
  | .ok _ =>
    match split_iod_csum.ic_data.rd0 with
    | .error e => .error e
    | .ok ci =>
      if ci.cs_nr > 1 then
        match D_ASSERT (decide (ci.cs_nr = u32 (tgt_max_idx + 1))) with
        | .error e => .error e
        | .ok _ =>
          .ok ({ split_iod_csum with ic_data := .singv i },
               { ci with
                 cs_nr := 1
                 cs_csum := ci.cs_csum + u32 (tgt_max_idx * ci.cs_len)
                 cs_buf_len := ci.cs_len })
      else .ok (split_iod_csum, dcs_csum_info.zero)

/-- One iteration of the loop of lines 113-160 for IOD `i`: the trimmed IOD,
the trimmed checksum entry (when the request has checksums) and the content of
slot `i` of `osr_singv_cis`.  Fields the iteration does not assign keep the zero
of the freshly allocated block (`iod_recxs` stays `NULL`).  The assertion of line
118 cannot fail: `osr_iod_csums` was set from the non-null block at line 90. -/
def split_iod (env : Env) (iods : List daos_iod_t)
    (iod_csums : Option (List dcs_iod_csums)) (tgt_oiod : obj_tgt_oiod)
    (tgt_max_idx i : Nat) :
    Except Fail (daos_iod_t × Option dcs_iod_csums × dcs_csum_info) :=
  match rd iods i with
  | .error e => .error e
  | .ok iod =>
  match (match iod_csums with
         | none => (.ok none : Except Fail (Option dcs_iod_csums))
         | some cs => (rd cs i).map some) with
  | .error e => .error e
  | .ok iod_csum =>
  match rd tgt_oiod.oto_oiods i with
  | .error e => .error e
  | .ok oiod =>
  let recxs_at (idx : Int) : Except Fail (Option (ArrPtr daos_recx_t)) :=
    match iod.iod_recxs with
    | none => .ok none
    | some p => (p.addr idx).map some
  if oiod.oiod_flags &&& env.OBJ_SIOD_SINGV ≠ 0 then
    match D_ASSERT (decide (iod.iod_type = .DAOS_IOD_SINGLE)) with
    | .error e => .error e
    | .ok _ =>
    match (match iod_csum with
           | none => (.ok (none, dcs_csum_info.zero) :
               Except Fail (Option dcs_iod_csums × dcs_csum_info))
           | some c => (split_singv_csum tgt_max_idx i c).map
               (fun (r : dcs_iod_csums × dcs_csum_info) => (some r.1, r.2))) with
    | .error e => .error e
    | .ok (split_iod_csum, singv_ci) =>
    match recxs_at 0 with
    | .error e => .error e
    | .ok recxs =>
      .ok (⟨iod.iod_name, iod.iod_type, iod.iod_size, 1, recxs⟩,
           split_iod_csum, singv_ci)
  else
    match rd oiod.oiod_siods 0 with
    | .error e => .error e
    | .ok siod =>
    let idx := int_of_u32 siod.siod_idx
    match (match iod_csum with
           | none => (.ok none : Except Fail (Option dcs_iod_csums))
           | some c => (c.ic_data.addr idx).map
               (fun d => some { c with ic_data := d, ic_nr := siod.siod_nr })) with
    | .error e => .error e
    | .ok split_iod_csum =>
    match recxs_at idx with
    | .error e => .error e
    | .ok recxs =>
      .ok (⟨iod.iod_name, iod.iod_type, iod.iod_size, siod.siod_nr, recxs⟩,
           split_iod_csum, dcs_csum_info.zero)

/-- A counted loop `for (i = start; i < start + n; i++)` collecting what each
iteration produces. -/
def for_loop {β : Type} (body : Nat → Except Fail β) : Nat → Nat → Except Fail (List β)
  | _, 0 => .ok []
  | i, n + 1 =>
    match body i with
    | .error e => .error e
    | .ok b =>
      match for_loop body (i + 1) n with
      | .error e => .error e
      | .ok bs => .ok (b :: bs)

/-! ## `obj_ec_rw_req_split` -/

/-- Line 77. -/
def req_size (env : Env) : Nat := roundup env.sizeof_obj_ec_split_req 8

/-- Line 78. -/
def iods_size (env : Env) (orw : obj_rw_in) : Nat :=
  roundup (u64 (env.sizeof_daos_iod_t * orw.orw_nr)) 8

/-- Lines 61 and 79-80. -/
def csums_size (env : Env) (orw : obj_rw_in) : Nat :=
  if orw.orw_iod_array.oia_iod_csums.isSome then
    roundup (u64 (env.sizeof_dcs_iod_csums * orw.orw_nr)) 8
  else 0

/-- Lines 61 and 81-82. -/
def singv_ci_size (env : Env) (orw : obj_rw_in) : Nat :=
  if orw.orw_iod_array.oia_iod_csums.isSome then
    roundup (u64 (env.sizeof_dcs_csum_info * orw.orw_nr)) 8
  else 0

/-- Line 84: the size handed to `D_ALLOC`. -/
def alloc_size (env : Env) (orw : obj_rw_in) : Nat :=
  u64 (req_size env + iods_size env orw + csums_size env orw + singv_ci_size env orw)

/-- Lines 68-74: the assertions on entry; yields the `oiods` array. -/
def pre_asserts (env : Env) (orw : obj_rw_in) : Except Fail (List obj_io_desc) :=
  match D_ASSERT (decide (tgt_nr orw ≥ 1)) with
  | .error e => .error e
  | .ok _ =>
    match orw.orw_iod_array.oia_oiods with
    | none => .error .assertion
    | some oiods =>
      match rd oiods 0 with
      | .error e => .error e
      | .ok o =>
        match D_ASSERT (decide (o.oiod_flags &&& env.OBJ_SIOD_SINGV ≠ 0) ||
            decide (o.oiod_nr ≥ 2)) with
        | .error e => .error e
        | .ok _ => .ok oiods

/-- Lines 106-162, once the table is built: look the leader's entry up, run the
per-IOD loop and fill the request. -/
def assemble (env : Env) (orw : obj_rw_in) (tgt_oiods : List obj_tgt_oiod) :
    Except Fail obj_ec_split_req :=
  match env.obj_ec_tgt_oiod_get tgt_oiods (u32 (tgt_nr orw + 1)) (tgt_max_idx orw) with
  | none => .error .assertion
  | some tgt_oiod =>
    match D_ASSERT (decide (tgt_oiod.oto_tgt_idx = tgt_max_idx orw)) with
    | .error e => .error e
    | .ok _ =>
      match for_loop (split_iod env orw.orw_iod_array.oia_iods
          orw.orw_iod_array.oia_iod_csums tgt_oiod (tgt_max_idx orw)) 0 orw.orw_nr with
      | .error e => .error e
      | .ok rs =>
        .ok { osr_start_shard := orw.orw_start_shard
              osr_iods := rs.map (fun r => r.1)
              osr_offs := tgt_oiod.oto_offs
              osr_iod_csums :=
                if orw.orw_iod_array.oia_iod_csums.isSome then
                  some (rs.filterMap (fun r => r.2.1))
                else none
              osr_singv_cis :=
                if orw.orw_iod_array.oia_iod_csums.isSome then
                  some (rs.map (fun r => r.2.2))
                else none
              osr_tgt_oiods := tgt_oiods }

/-- The function `obj_ec_rw_req_split` (lines 42-171). -/
def obj_ec_rw_req_split (env : Env) (orw : obj_rw_in) : Run :=
  match pre_asserts env orw with
  | .error f => ⟨.aborted f, none, []⟩
  | .ok oiods =>
    if env.D_ALLOC (alloc_size env orw) = false then
      ⟨.returned (-(env.DER_NOMEM : Int)), none, [.alloc (alloc_size env orw) false]⟩
    else
      match build_bitmap env orw with
      | .error f => ⟨.aborted f, none, [.alloc (alloc_size env orw) true]⟩
      | .ok bm =>
        match env.obj_ec_tgt_oiod_init oiods orw.orw_nr bm (tgt_max_idx orw)
            (u32 (tgt_nr orw + 1)) with
        | none =>
          -- `D_GOTO(out, rc = -DER_NOMEM)`, then lines 164-170
          if (-(env.DER_NOMEM : Int)) ≠ 0 then
            ⟨.returned (-(env.DER_NOMEM : Int)), none,
              [.alloc (alloc_size env orw) true,
               .tgt_oiod_init bm (tgt_max_idx orw) (u32 (tgt_nr orw + 1)) false,
               .free_buf, .tgt_oiod_fini none]⟩
          else
            ⟨.returned (-(env.DER_NOMEM : Int)), none,
              [.alloc (alloc_size env orw) true,
               .tgt_oiod_init bm (tgt_max_idx orw) (u32 (tgt_nr orw + 1)) false]⟩
        | some tgt_oiods =>
          match assemble env orw tgt_oiods with
          | .error f =>
            ⟨.aborted f, none,
              [.alloc (alloc_size env orw) true,
               .tgt_oiod_init bm (tgt_max_idx orw) (u32 (tgt_nr orw + 1)) true]⟩
          | .ok req =>
            ⟨.returned 0, some req,
              [.alloc (alloc_size env orw) true,
               .tgt_oiod_init bm (tgt_max_idx orw) (u32 (tgt_nr orw + 1)) true]⟩

/-- The Target-OIOD entry a successful call was split for: the entry that
`obj_ec_tgt_oiod_get` returns on the table stored in the request. -/
def split_tgt_oiod (env : Env) (orw : obj_rw_in) (req : obj_ec_split_req) :
    Option obj_tgt_oiod :=
  env.obj_ec_tgt_oiod_get req.osr_tgt_oiods (u32 (tgt_nr orw + 1)) (tgt_max_idx orw)

/-! ## Buffer layout and release -/

/-- Line 88: `req->osr_iods = buf + req_size`, as a byte offset into the block. -/
def osr_iods_off (env : Env) : Nat := req_size env

/-- Line 90: `req->osr_iod_csums = buf + req_size + iods_size`, as a byte offset
into the block (set when the request carries checksums). -/
def osr_iod_csums_off (env : Env) (orw : obj_rw_in) : Nat :=
  req_size env + iods_size env orw

/-- Line 91: `req->osr_singv_cis = buf + req_size + iods_size + csums_size`, as a
byte offset into the block (set when the request carries checksums). -/
def osr_singv_cis_off (env : Env) (orw : obj_rw_in) : Nat :=
  req_size env + iods_size env orw + csums_size env orw

/-- The function `obj_ec_split_req_fini` (lines 173-180), as the releasing calls
it makes in program order; `none` is a `NULL` request.  `D_FREE(req)` releases the
block that `obj_ec_rw_req_split` allocated (`req = buf`). -/
def obj_ec_split_req_fini (req : Option obj_ec_split_req) : List Event :=
  match req with
  | none => []
  | some r => [.tgt_oiod_fini (some r.osr_tgt_oiods), .free_buf]

/-! ## Notions used to state the properties -/

/-- The split requests one call hands to its caller: the one stored through
`split_req`, if any. -/
def produced_split_reqs (env : Env) (orw : obj_rw_in) : List obj_ec_split_req :=
  (obj_ec_rw_req_split env orw).split_req.toList

/-- The record extents an IOD designates: `iod_nr` elements from `iod_recxs`. -/
def iod_recx_seq (iod : daos_iod_t) : List daos_recx_t :=
  match iod.iod_recxs with
  | some p => p.view iod.iod_nr
  | none => []

/-- The record extents of trimmed IOD `i` of a split request. -/
def trimmed_recxs (req : obj_ec_split_req) (i : Nat) : List daos_recx_t :=
  match req.osr_iods[i]? with
  | some t => iod_recx_seq t
  | none => []

/-- The shard offsets of the forward targets the bitmap loop visits. -/
def fw_offsets (orw : obj_rw_in) : List Nat :=
  (orw.orw_shard_tgts.ca_arrays.take (tgt_nr orw)).map
    (fun t => u32_sub t.st_shard orw.orw_start_shard)

/-! ## A concrete request: the four-extent scenario -/

/-- An environment for examples: a 16-byte bitmap, sample constants and sizes,
an allocator and a table builder whose results are given, and a lookup by
`oto_tgt_idx`. -/
def example_env (tbl : Option (List obj_tgt_oiod)) (alloc_ok : Bool) : Env where
  OBJ_TGT_BITMAP_LEN := 16
  OBJ_SIOD_SINGV := 2
  DER_NOMEM := 1009
  sizeof_obj_ec_split_req := 48
  sizeof_daos_iod_t := 56
  sizeof_dcs_iod_csums := 48
  sizeof_dcs_csum_info := 24
  D_ALLOC := fun _ => alloc_ok
  obj_ec_tgt_oiod_init := fun _ _ _ _ _ => tbl
  obj_ec_tgt_oiod_get := fun t _ idx => t.find? (fun e => e.oto_tgt_idx == idx)

/-- The extents `[(0,10),(10,10),(20,10),(30,10)]`. -/
def recxs4 : List daos_recx_t := [⟨0, 10⟩, ⟨10, 10⟩, ⟨20, 10⟩, ⟨30, 10⟩]

/-- Four checksum infos, one per extent of `recxs4`. -/
def cis4 : List dcs_csum_info :=
  [⟨1000, 1, 1, 4, 4, 32⟩, ⟨1004, 1, 1, 4, 4, 32⟩, ⟨1008, 1, 1, 4, 4, 32⟩,
   ⟨1012, 1, 1, 4, 4, 32⟩]

/-- The array IOD of the scenario. -/
def iod4 : daos_iod_t :=
  ⟨⟨7, 8, 8⟩, .DAOS_IOD_ARRAY, 1, 4, some ⟨recxs4, 0⟩⟩

/-- The group layout of the scenario: shard 0 owns extents `[0,2)`, shard 1 (the
leader) owns the two extents from index 2. -/
def oiods4 : List obj_io_desc := [⟨2, 0, [⟨0, 0, 2, 0⟩, ⟨1, 2, 2, 20⟩]⟩]

/-- The Target-OIOD table of the scenario, in ascending target order. -/
def tbl4 : List obj_tgt_oiod :=
  [⟨0, [0], [⟨1, 0, [⟨0, 0, 2, 0⟩]⟩]⟩, ⟨1, [20], [⟨1, 0, [⟨1, 2, 2, 20⟩]⟩]⟩]

/-- The request of the scenario: one forward target (shard 0), leader shard 1. -/
def orw4 (with_csums : Bool) : obj_rw_in where
  orw_oid := ⟨1⟩
  orw_start_shard := 0
  orw_nr := 1
  orw_iod_array :=
    ⟨[iod4], some oiods4, if with_csums then some [⟨dcs_csum_info.zero, .data ⟨cis4, 0⟩, 4⟩] else none⟩
  orw_shard_tgts := ⟨1, [⟨0⟩]⟩

/-- The environment of the scenario. -/
def env4 : Env := example_env (some tbl4) true

/-- The split request the leader obtains in the scenario without checksums. -/
def req4 : obj_ec_split_req where
  osr_start_shard := 0
  osr_iods := [⟨⟨7, 8, 8⟩, .DAOS_IOD_ARRAY, 1, 2, some ⟨recxs4, 2⟩⟩]
  osr_offs := [20]
  osr_iod_csums := none
  osr_singv_cis := none
  osr_tgt_oiods := tbl4

/-! ## A concrete request: a single value striped over three shards -/

/-- A single-value IOD (its count and extents are there to be ignored). -/
def iod_sv : daos_iod_t :=
  ⟨⟨9, 4, 4⟩, .DAOS_IOD_SINGLE, 64, 3, some ⟨[⟨0, 1⟩, ⟨1, 1⟩, ⟨2, 1⟩], 0⟩⟩

/-- The checksum info of the single value: `cs_nr` chunks of 4 bytes at
address 5000. -/
def ci_sv (cs_nr : Nat) : dcs_csum_info := ⟨5000, cs_nr, 1, 4, 4 * cs_nr, 0⟩

/-- The group layout of the single value: flagged `OBJ_SIOD_SINGV`. -/
def oiods_sv : List obj_io_desc := [⟨0, 2, []⟩]

/-- The Target-OIOD table for shards 0, 1 and 2 (the leader). -/
def tbl_sv : List obj_tgt_oiod :=
  [⟨0, [0], oiods_sv⟩, ⟨1, [0], oiods_sv⟩, ⟨2, [0], oiods_sv⟩]

/-- The checksum entry of the single value. -/
def csum_sv (cs_nr : Nat) : dcs_iod_csums :=
  ⟨dcs_csum_info.zero, .data ⟨[ci_sv cs_nr], 0⟩, 1⟩

/-- The single-value request: forward targets 0 and 1, leader shard 2. -/
def orw_sv (cs_nr : Nat) : obj_rw_in where
  orw_oid := ⟨2⟩
  orw_start_shard := 0
  orw_nr := 1
  orw_iod_array := ⟨[iod_sv], some oiods_sv, some [csum_sv cs_nr]⟩
  orw_shard_tgts := ⟨2, [⟨0⟩, ⟨1⟩]⟩

/-- The environment of the single-value request. -/
def env_sv : Env := example_env (some tbl_sv) true

/-- The single-value request with the forward target of shard 0 listed twice. -/
def orw_dup : obj_rw_in :=
  { orw_sv 3 with orw_shard_tgts := ⟨2, [⟨0⟩, ⟨0⟩]⟩ }

/-- An environment whose allocator fails. -/
def env_nomem : Env := example_env (some tbl4) false

/-- An environment whose Target-OIOD table constructor fails. -/
def env_notbl : Env := example_env none true

end SrvEc

/-! # Argument parsing of the administrative tool (`src/tests/daosctl/pool-cmds.c`)

`parse_rank_list` and `parse_size` are embedded with the C library functions
they call: `strtok` is written out after the C standard (one delimiter, `","`);
`atoi`, `strtoul` and the success of `calloc` are parameters.  A C string is the
list of its characters before the terminating NUL. -/

namespace PoolCmds

/-- The rank list `d_rank_list_t`; `rl_ranks = none` is `NULL`. -/
structure d_rank_list_t where
  rl_ranks : Option (List Nat)
  rl_nr : Nat
  deriving DecidableEq, Repr

/-- What a call of `parse_rank_list` leaves behind: the return code, the rank
list written through `num_rank_list`, and the messages printed. -/
structure ParseRun where
  rc : Int
  num_rank_list : d_rank_list_t
  printed : List String
  deriving DecidableEq, Repr

/-- The local constant `const uint32_t MAX = 1000`. -/
def MAX : Nat := 1000

/-- One call of `strtok` with the delimiter `delim` on what is left of the
string: delimiters are skipped; if nothing follows the result is `NULL`
(`none`), otherwise the token runs up to the next delimiter and the scan resumes
behind that delimiter. -/
def strtok (delim : Char) (s : List Char) : Option (List Char × List Char) :=
  match s.dropWhile (fun c => c == delim) with
  | [] => none
  | c :: cs =>
    some ((c :: cs).takeWhile (fun x => x != delim),
          ((c :: cs).dropWhile (fun x => x != delim)).drop 1)

/-- Storing an `int` into a `uint32_t` (`rank_list[i++] = atoi(token)`). -/
def u32_of_int (z : Int) : Nat := (z % 2 ^ 32).toNat

/-- The loop of lines 84-88, with `k = MAX - i` iterations left and the result
of the latest `strtok` call: the ranks stored into `rank_list` from index `i`. -/
def rank_loop (atoi : List Char → Int) : Nat → Option (List Char × List Char) → List Nat
  | 0, _ => []
  | _ + 1, none => []
  | k + 1, some (token, rest) =>
    u32_of_int (atoi token) :: rank_loop atoi k (strtok ',' rest)

/-- The warning of line 89. -/
def warning : String := "rank list exceeded maximum, threw some away"

/-- The function `parse_rank_list` (lines 71-100). -/
def parse_rank_list (atoi : List Char → Int) (calloc_ok : Bool)
    (str_rank_list : List Char) : ParseRun :=
  let rank_list := rank_loop atoi MAX (strtok ',' str_rank_list)
  let i := rank_list.length
  let warned : List String :=
    if i ≥ MAX then [warning] else []
  if calloc_ok then
    ⟨0, ⟨some (rank_list.take i), i⟩, warned⟩
  else
    ⟨-1, ⟨none, i⟩, warned ++ ["failed allocating pool service rank list"]⟩

/-- The non-empty tokens of a comma-separated string, in the words of the
specification: split at every comma, drop the empty pieces. -/
def comma_tokens (s : List Char) : List (List Char) :=
  (s.splitOn ',').filter (fun t => !t.isEmpty)

/-- A stand-in for `atoi` in examples: the value of the leading decimal digits. -/
def atoi_digits (t : List Char) : Int :=
  (((t.takeWhile Char.isDigit).foldl (fun n c => 10 * n + (c.toNat - 48)) 0 : Nat) : Int)

/-- The rank string `3,,12,7`. -/
def ranks_3_12_7 : List Char := ['3', ',', ',', '1', '2', ',', '7']

/-- A string of `n` ranks `7`, each followed by a comma. -/
def sevens (n : Nat) : List Char := (List.replicate n ['7', ',']).flatten

/-! ## `parse_size` -/

/-- What a call of `parse_size` leaves behind: the return code and the value
stored through `size`. -/
structure SizeRun where
  rc : Int
  size : Nat
  deriving DecidableEq, Repr

/-- The character `*unit`: the first character of the text `unit` points at, NUL
at the end of the string. -/
def deref (unit : List Char) : Char :=
  match unit with
  | [] => '\x00'
  | c :: _ => c

/-- The function `parse_size` (lines 102-125).  The C library function `strtoul`,
called with base 0, is a parameter: it gives the value it returns and the text
its end pointer `unit` is left at.  The value is stored into a `uint64_t` and
shifted there, so both wrap at `2 ^ 64`. -/
def parse_size (strtoul : List Char → Nat × List Char) (arg : List Char) : SizeRun :=
  let size := (strtoul arg).1 % 2 ^ 64
  let c := deref (strtoul arg).2
  if c = '\x00' then ⟨0, size⟩
  else if c = 'k' ∨ c = 'K' then ⟨0, (size <<< 10) % 2 ^ 64⟩
  else if c = 'm' ∨ c = 'M' then ⟨0, (size <<< 20) % 2 ^ 64⟩
  else if c = 'g' ∨ c = 'G' then ⟨0, (size <<< 30) % 2 ^ 64⟩
  else ⟨0, size⟩

/-- The unit suffixes the help text names (`k/m/g appended`), in both cases. -/
def unit_suffixes : List (List Char) := [['k'], ['K'], ['m'], ['M'], ['g'], ['G']]

/-- A stand-in for `strtoul` in examples: the value of the leading decimal digits
and the text behind them. -/
def strtoul_digits (arg : List Char) : Nat × List Char :=
  ((arg.takeWhile Char.isDigit).foldl (fun n c => 10 * n + (c.toNat - 48)) 0,
   arg.dropWhile Char.isDigit)

end PoolCmds

namespace SrvEc

/-! ## Auxiliary lemmas -/

theorem rd_ok_iff {α : Type} (a : List α) (i : Nat) (x : α) :
    rd a i = .ok x ↔ a[i]? = some x := by
  unfold rd
  cases h : a[i]? <;> simp

theorem D_ASSERT_ok_iff (c : Bool) : D_ASSERT c = .ok () ↔ c = true := by
  unfold D_ASSERT
  cases c <;> simp

/-- A counted loop that finishes ran every iteration, in order. -/
theorem for_loop_ok {β : Type} (body : Nat → Except Fail β) :
    ∀ (n i : Nat) (l : List β), for_loop body i n = .ok l →
      l.length = n ∧ ∀ j, j < n → ∃ b, body (i + j) = .ok b ∧ l[j]? = some b := by
  intro n
  induction n with
  | zero =>
    intro i l h
    simp [for_loop] at h
    subst h
    simp
  | succ n ih =>
    intro i l h
    unfold for_loop at h
    cases hb : body i with
    | error e => simp [hb] at h
    | ok b =>
      cases hr : for_loop body (i + 1) n with
      | error e => simp [hb, hr] at h
      | ok bs =>
        simp [hb, hr] at h
        subst h
        obtain ⟨hlen, hall⟩ := ih (i + 1) bs hr
        refine ⟨by simp [hlen], ?_⟩
        intro j hj
        cases j with
        | zero => exact ⟨b, by simpa using hb, by simp⟩
        | succ k =>
          obtain ⟨c, hc1, hc2⟩ := hall k (by omega)
          refine ⟨c, ?_, by simpa using hc2⟩
          have : i + (k + 1) = i + 1 + k := by omega
          rw [this]; exact hc1

/-- The run of a call in which nothing fails. -/
theorem run_of_ok {env : Env} {orw : obj_rw_in} {oiods : List obj_io_desc}
    {bm : List Nat} {tgt_oiods : List obj_tgt_oiod} {req : obj_ec_split_req}
    (hp : pre_asserts env orw = .ok oiods)
    (ha : env.D_ALLOC (alloc_size env orw) = true)
    (hb : build_bitmap env orw = .ok bm)
    (hi : env.obj_ec_tgt_oiod_init oiods orw.orw_nr bm (tgt_max_idx orw)
        (u32 (tgt_nr orw + 1)) = some tgt_oiods)
    (hasm : assemble env orw tgt_oiods = .ok req) :
    obj_ec_rw_req_split env orw =
      ⟨.returned 0, some req,
        [.alloc (alloc_size env orw) true,
         .tgt_oiod_init bm (tgt_max_idx orw) (u32 (tgt_nr orw + 1)) true]⟩ := by
  simp [obj_ec_rw_req_split, hp, ha, hb, hi, hasm]

/-- What `assemble` went through when it finished. -/
theorem assemble_inv {env : Env} {orw : obj_rw_in} {tgt_oiods : List obj_tgt_oiod}
    {req : obj_ec_split_req} (hasm : assemble env orw tgt_oiods = .ok req) :
    ∃ tgt_oiod rs,
      env.obj_ec_tgt_oiod_get tgt_oiods (u32 (tgt_nr orw + 1)) (tgt_max_idx orw)
        = some tgt_oiod ∧
      tgt_oiod.oto_tgt_idx = tgt_max_idx orw ∧
      for_loop (split_iod env orw.orw_iod_array.oia_iods
        orw.orw_iod_array.oia_iod_csums tgt_oiod (tgt_max_idx orw)) 0 orw.orw_nr = .ok rs ∧
      req = { osr_start_shard := orw.orw_start_shard
              osr_iods := rs.map (fun r => r.1)
              osr_offs := tgt_oiod.oto_offs
              osr_iod_csums :=
                if orw.orw_iod_array.oia_iod_csums.isSome then
                  some (rs.filterMap (fun r => r.2.1))
                else none
              osr_singv_cis :=
                if orw.orw_iod_array.oia_iod_csums.isSome then
                  some (rs.map (fun r => r.2.2))
                else none
              osr_tgt_oiods := tgt_oiods } := by
  unfold assemble at hasm
  cases hg : env.obj_ec_tgt_oiod_get tgt_oiods (u32 (tgt_nr orw + 1))
      (tgt_max_idx orw) with
  | none => simp [hg] at hasm
  | some tgt_oiod =>
    cases hd : D_ASSERT (decide (tgt_oiod.oto_tgt_idx = tgt_max_idx orw)) with
    | error e => simp [hg, hd] at hasm
    | ok u =>
      cases hl : for_loop (split_iod env orw.orw_iod_array.oia_iods
          orw.orw_iod_array.oia_iod_csums tgt_oiod (tgt_max_idx orw)) 0
          orw.orw_nr with
      | error e => simp [hg, hd, hl] at hasm
      | ok rs =>
        simp only [hg, hd, hl] at hasm
        have hreq := (Except.ok.inj hasm).symm
        have hidx : tgt_oiod.oto_tgt_idx = tgt_max_idx orw := by
          have := (D_ASSERT_ok_iff _).1 hd
          simpa using this
        exact ⟨tgt_oiod, rs, rfl, hidx, hl, hreq⟩

/-- What a call that stored a split request went through. -/
theorem split_req_inv {env : Env} {orw : obj_rw_in} {req : obj_ec_split_req}
    (h : (obj_ec_rw_req_split env orw).split_req = some req) :
    ∃ oiods bm tgt_oiods,
      pre_asserts env orw = .ok oiods ∧
      env.D_ALLOC (alloc_size env orw) = true ∧
      build_bitmap env orw = .ok bm ∧
      env.obj_ec_tgt_oiod_init oiods orw.orw_nr bm (tgt_max_idx orw)
        (u32 (tgt_nr orw + 1)) = some tgt_oiods ∧
      assemble env orw tgt_oiods = .ok req := by
  unfold obj_ec_rw_req_split at h
  cases hp : pre_asserts env orw with
  | error e => simp [hp] at h
  | ok oiods =>
    cases ha : env.D_ALLOC (alloc_size env orw) with
    | false => simp [hp, ha] at h
    | true =>
      cases hb : build_bitmap env orw with
      | error e => simp [hp, ha, hb] at h
      | ok bm =>
        cases hi : env.obj_ec_tgt_oiod_init oiods orw.orw_nr bm (tgt_max_idx orw)
            (u32 (tgt_nr orw + 1)) with
        | none =>
          simp only [hp, ha, hb, hi] at h
          split at h
          · simp at h
          · split at h <;> simp at h
        | some tgt_oiods =>
          cases hasm : assemble env orw tgt_oiods with
          | error e => simp [hp, ha, hb, hi, hasm] at h
          | ok r =>
            simp [hp, ha, hb, hi, hasm] at h
            subst h
            exact ⟨oiods, bm, tgt_oiods, rfl, rfl, rfl, hi, hasm⟩

/-- The per-IOD iterations behind a stored split request. -/
theorem split_req_loop {env : Env} {orw : obj_rw_in} {req : obj_ec_split_req}
    (h : (obj_ec_rw_req_split env orw).split_req = some req) :
    ∃ (tgt_oiod : obj_tgt_oiod)
      (rs : List (daos_iod_t × Option dcs_iod_csums × dcs_csum_info)),
      split_tgt_oiod env orw req = some tgt_oiod ∧
      tgt_oiod.oto_tgt_idx = tgt_max_idx orw ∧
      rs.length = orw.orw_nr ∧
      (∀ i, i < orw.orw_nr → ∃ b,
        split_iod env orw.orw_iod_array.oia_iods orw.orw_iod_array.oia_iod_csums
          tgt_oiod (tgt_max_idx orw) i = .ok b ∧ rs[i]? = some b) ∧
      req.osr_start_shard = orw.orw_start_shard ∧
      req.osr_iods = rs.map (fun r => r.1) ∧
      req.osr_offs = tgt_oiod.oto_offs ∧
      req.osr_iod_csums =
        (if orw.orw_iod_array.oia_iod_csums.isSome then
          some (rs.filterMap (fun r => r.2.1)) else none) ∧
      req.osr_singv_cis =
        (if orw.orw_iod_array.oia_iod_csums.isSome then
          some (rs.map (fun r => r.2.2)) else none) := by
  obtain ⟨oiods, bm, tgt_oiods, -, -, -, -, hasm⟩ := split_req_inv h
  obtain ⟨tgt_oiod, rs, hg, hidx, hl, hreq⟩ := assemble_inv hasm
  obtain ⟨hlen, hall⟩ := for_loop_ok _ _ _ _ hl
  refine ⟨tgt_oiod, rs, ?_, hidx, hlen, ?_, ?_, ?_, ?_, ?_, ?_⟩
  · subst hreq; exact hg
  · intro i hi
    obtain ⟨b, hb1, hb2⟩ := hall i hi
    exact ⟨b, by simpa using hb1, hb2⟩
  all_goals (subst hreq; rfl)

/-- The ranged branch of one iteration (lines 148-159). -/
theorem split_iod_ranged {env : Env} {iods : List daos_iod_t}
    {iod_csums : Option (List dcs_iod_csums)} {t : obj_tgt_oiod} {m i : Nat}
    {b : daos_iod_t × Option dcs_iod_csums × dcs_csum_info}
    {iod : daos_iod_t} {oiod : obj_io_desc} {siod : obj_shard_iod}
    (h : split_iod env iods iod_csums t m i = .ok b)
    (hiod : iods[i]? = some iod) (hoiod : t.oto_oiods[i]? = some oiod)
    (hflag : oiod.oiod_flags &&& env.OBJ_SIOD_SINGV = 0)
    (hsiod : oiod.oiod_siods[0]? = some siod) :
    b.1.iod_nr = siod.siod_nr ∧
    (∀ p, iod.iod_recxs = some p →
      ∃ q, p.addr (int_of_u32 siod.siod_idx) = .ok q ∧ b.1.iod_recxs = some q) ∧
    (∀ cs, iod_csums = some cs →
      ∃ c d, cs[i]? = some c ∧ c.ic_data.addr (int_of_u32 siod.siod_idx) = .ok d ∧
        b.2.1 = some { c with ic_data := d, ic_nr := siod.siod_nr }) ∧
    b.2.2 = dcs_csum_info.zero := by
  unfold split_iod at h
  have h1 : rd iods i = .ok iod := (rd_ok_iff _ _ _).2 hiod
  have h2 : rd t.oto_oiods i = .ok oiod := (rd_ok_iff _ _ _).2 hoiod
  have h3 : rd oiod.oiod_siods 0 = .ok siod := (rd_ok_iff _ _ _).2 hsiod
  cases hcs : iod_csums with
  | none =>
    simp only [h1, h2, h3, hcs, hflag] at h
    cases hr : iod.iod_recxs with
    | none =>
      simp [hr] at h
      subst h
      simp
    | some p =>
      cases hq : p.addr (int_of_u32 siod.siod_idx) with
      | error e => simp [hr, hq, Except.map] at h
      | ok q =>
        simp [hr, hq, Except.map] at h
        subst h
        simp [hq]
  | some cs =>
    cases hc : rd cs i with
    | error e => simp [h1, hcs, hc, Except.map] at h
    | ok c =>
      cases hd : c.ic_data.addr (int_of_u32 siod.siod_idx) with
      | error e => simp [h1, h2, h3, hcs, hc, hd, hflag, Except.map] at h
      | ok d =>
        have hc2 := (rd_ok_iff _ _ _).1 hc
        cases hr : iod.iod_recxs with
        | none =>
          simp [h1, h2, h3, hcs, hc, hd, hflag, hr, Except.map] at h
          subst h
          simp [hc2, hd]
        | some p =>
          cases hq : p.addr (int_of_u32 siod.siod_idx) with
          | error e => simp [h1, h2, h3, hcs, hc, hd, hflag, hr, hq, Except.map] at h
          | ok q =>
            simp [h1, h2, h3, hcs, hc, hd, hflag, hr, hq, Except.map] at h
            subst h
            simp [hc2, hd, hq]

/-- With checksums, every finished iteration wrote its trimmed checksum entry. -/
theorem split_iod_csum_some {env : Env} {iods : List daos_iod_t}
    {cs : List dcs_iod_csums} {t : obj_tgt_oiod} {m i : Nat}
    {b : daos_iod_t × Option dcs_iod_csums × dcs_csum_info}
    (h : split_iod env iods (some cs) t m i = .ok b) : b.2.1.isSome = true := by
  unfold split_iod at h
  cases h1 : rd iods i with
  | error e => simp [h1] at h
  | ok iod =>
    cases hc : rd cs i with
    | error e => simp [h1, hc, Except.map] at h
    | ok c =>
      cases h2 : rd t.oto_oiods i with
      | error e => simp [h1, hc, h2, Except.map] at h
      | ok oiod =>
        simp only [h1, hc, h2, Except.map] at h
        split at h
        · split at h
          · simp at h
          · split at h
            · simp at h
            · rename_i x y z w hw
              cases hs : split_singv_csum m i c with
              | error e => simp [hs] at hw
              | ok r =>
                simp [hs] at hw
                split at h
                · simp at h
                · simp at h
                  subst h
                  simp [← hw.1]
        · cases h3 : rd oiod.oiod_siods 0 with
          | error e => simp [h3] at h
          | ok siod =>
            cases hd : c.ic_data.addr (int_of_u32 siod.siod_idx) with
            | error e => simp [h3, hd] at h
            | ok d =>
              simp only [h3, hd] at h
              split at h
              · simp at h
              · simp at h
                subst h
                simp

/-- The single-value branch of one iteration (lines 127-147 and 158-159). -/
theorem split_iod_singv {env : Env} {iods : List daos_iod_t}
    {iod_csums : Option (List dcs_iod_csums)} {t : obj_tgt_oiod} {m i : Nat}
    {b : daos_iod_t × Option dcs_iod_csums × dcs_csum_info}
    {iod : daos_iod_t} {oiod : obj_io_desc}
    (h : split_iod env iods iod_csums t m i = .ok b)
    (hiod : iods[i]? = some iod) (hoiod : t.oto_oiods[i]? = some oiod)
    (hflag : oiod.oiod_flags &&& env.OBJ_SIOD_SINGV ≠ 0) :
    iod.iod_type = .DAOS_IOD_SINGLE ∧
    b.1.iod_nr = 1 ∧
    (∀ p, iod.iod_recxs = some p → ∃ q, p.addr 0 = .ok q ∧ b.1.iod_recxs = some q) ∧
    (iod_csums = none → b.2.1 = none ∧ b.2.2 = dcs_csum_info.zero) ∧
    (∀ cs, iod_csums = some cs →
      ∃ c r, cs[i]? = some c ∧ split_singv_csum m i c = .ok r ∧
        b.2.1 = some r.1 ∧ b.2.2 = r.2) := by
  unfold split_iod at h
  have h1 : rd iods i = .ok iod := (rd_ok_iff _ _ _).2 hiod
  have h2 : rd t.oto_oiods i = .ok oiod := (rd_ok_iff _ _ _).2 hoiod
  cases hty : D_ASSERT (decide (iod.iod_type = .DAOS_IOD_SINGLE)) with
  | error e =>
    cases hcs : iod_csums with
    | none => simp [h1, h2, hcs, hflag, hty] at h
    | some cs =>
      cases hc : rd cs i with
      | error e => simp [h1, hcs, hc, Except.map] at h
      | ok c => simp [h1, h2, hcs, hc, hflag, hty, Except.map] at h
  | ok u =>
    have hty2 : iod.iod_type = .DAOS_IOD_SINGLE := by
      have := (D_ASSERT_ok_iff _).1 hty
      simpa using this
    refine ⟨hty2, ?_⟩
    cases hcs : iod_csums with
    | none =>
      simp only [h1, h2, hcs, hflag, hty] at h
      cases hr : iod.iod_recxs with
      | none =>
        simp [hr, hflag] at h
        subst h
        simp
      | some p =>
        cases hq : p.addr 0 with
        | error e => simp [hr, hq, hflag, Except.map] at h
        | ok q =>
          simp [hr, hq, hflag, Except.map] at h
          subst h
          simp [hq]
    | some cs =>
      cases hc : rd cs i with
      | error e => simp [h1, hcs, hc, Except.map] at h
      | ok c =>
        have hc2 := (rd_ok_iff _ _ _).1 hc
        cases hs : split_singv_csum m i c with
        | error e => simp [h1, h2, hcs, hc, hflag, hty, hs, Except.map] at h
        | ok r =>
          cases hr : iod.iod_recxs with
          | none =>
            simp [h1, h2, hcs, hc, hflag, hty, hs, hr, Except.map] at h
            subst h
            simp [hc2, hs]
          | some p =>
            cases hq : p.addr 0 with
            | error e => simp [h1, h2, hcs, hc, hflag, hty, hs, hr, hq, Except.map] at h
            | ok q =>
              simp [h1, h2, hcs, hc, hflag, hty, hs, hr, hq, Except.map] at h
              subst h
              simp [hc2, hs, hq]

/-- Every finished iteration read its IOD and its Target-OIOD entry and copied
name, type and element size (lines 123-126). -/
theorem split_iod_fields {env : Env} {iods : List daos_iod_t}
    {iod_csums : Option (List dcs_iod_csums)} {t : obj_tgt_oiod} {m i : Nat}
    {b : daos_iod_t × Option dcs_iod_csums × dcs_csum_info}
    (h : split_iod env iods iod_csums t m i = .ok b) :
    ∃ iod oiod, iods[i]? = some iod ∧ t.oto_oiods[i]? = some oiod ∧
      b.1.iod_name = iod.iod_name ∧ b.1.iod_type = iod.iod_type ∧
      b.1.iod_size = iod.iod_size := by
  have h0 := h
  unfold split_iod at h
  cases h1 : rd iods i with
  | error e => simp [h1] at h
  | ok iod =>
    cases h2 : rd t.oto_oiods i with
    | error e =>
      simp only [h1, h2] at h
      split at h <;> simp at h
    | ok oiod =>
      have hiod := (rd_ok_iff _ _ _).1 h1
      have hoiod := (rd_ok_iff _ _ _).1 h2
      refine ⟨iod, oiod, hiod, hoiod, ?_⟩
      simp only [h1, h2] at h
      split at h
      · simp at h
      · split at h
        · repeat' (split at h)
          all_goals first
            | (simp at h; done)
            | (simp at h; subst h; simp)
        · repeat' (split at h)
          all_goals first
            | (simp at h; done)
            | (simp at h; subst h; simp)

/-- The address `&p[idx]` for an index read from a `uint32_t` that lies inside an
array of fewer than `2 ^ 32` elements. -/
theorem addr_int_of_u32 {α : Type} {p q : ArrPtr α} {v : Nat}
    (h : p.addr (int_of_u32 v) = .ok q) (hin : p.off + v ≤ p.base.length)
    (hlen : p.base.length < 2 ^ 32) : q = ⟨p.base, p.off + v⟩ := by
  unfold ArrPtr.addr at h
  split at h
  · rename_i hb
    have hq := (Except.ok.inj h).symm
    subst hq
    have hv : u32 v = v := by unfold u32; omega
    unfold int_of_u32 at hb ⊢
    rw [hv] at hb ⊢
    split at hb
    · rename_i h31
      simp only [h31, if_true]
      congr 1
    · rename_i h31
      omega
  · simp at h

theorem addr_ok_bound {α : Type} {p q : ArrPtr α} {k : Int}
    (h : p.addr k = .ok q) : 0 ≤ (p.off : Int) + k ∧ (p.off : Int) + k ≤ p.base.length := by
  unfold ArrPtr.addr at h
  split at h
  · assumption
  · simp at h

theorem addr_zero {α : Type} {p q : ArrPtr α} (h : p.addr 0 = .ok q) : q = p := by
  unfold ArrPtr.addr at h
  split at h
  · have hq := (Except.ok.inj h).symm
    subst hq
    simp
  · simp at h

/-- Taking a window of a window. -/
theorem view_window {α : Type} (l : List α) (off n idx cnt : Nat)
    (hin : idx + cnt ≤ ((l.drop off).take n).length) :
    (l.drop (off + idx)).take cnt = (((l.drop off).take n).drop idx).take cnt := by
  rw [List.drop_take, List.take_take, List.drop_drop]
  simp only [List.length_take, List.length_drop] at hin
  congr 1
  omega

theorem filterMap_all_some {α β : Type} (f : α → Option β) :
    ∀ (l : List α), (∀ a ∈ l, (f a).isSome = true) →
      (l.filterMap f).length = l.length ∧
        ∀ i : Nat, (l.filterMap f)[i]? = l[i]?.bind f := by
  intro l
  induction l with
  | nil => intro _; simp
  | cons a l ih =>
    intro h
    obtain ⟨b, hb⟩ := Option.isSome_iff_exists.1 (h a (by simp))
    obtain ⟨hl, hi⟩ := ih (fun x hx => h x (by simp [hx]))
    rw [List.filterMap_cons_some hb]
    refine ⟨by simp [hl], ?_⟩
    intro i
    cases i with
    | zero => simp [hb]
    | succ k => simpa using hi k

/-- What a stored split request holds at IOD index `i`. -/
theorem split_req_at {env : Env} {orw : obj_rw_in} {req : obj_ec_split_req}
    {tgt_oiod : obj_tgt_oiod}
    (h : (obj_ec_rw_req_split env orw).split_req = some req)
    (htgt : split_tgt_oiod env orw req = some tgt_oiod) {i : Nat} (hi : i < orw.orw_nr) :
    ∃ b, split_iod env orw.orw_iod_array.oia_iods orw.orw_iod_array.oia_iod_csums
        tgt_oiod (tgt_max_idx orw) i = .ok b ∧
      req.osr_iods.length = orw.orw_nr ∧
      req.osr_iods[i]? = some b.1 ∧
      (orw.orw_iod_array.oia_iod_csums = none →
        req.osr_iod_csums = none ∧ req.osr_singv_cis = none) ∧
      (∀ cs, orw.orw_iod_array.oia_iod_csums = some cs →
        ∃ scs segs, req.osr_iod_csums = some scs ∧ scs.length = orw.orw_nr ∧
          scs[i]? = b.2.1 ∧ req.osr_singv_cis = some segs ∧
          segs.length = orw.orw_nr ∧ segs[i]? = some b.2.2) := by
  obtain ⟨t0, rs, ht0, -, hlen, hall, -, hiods, -, hcsums, hsegs⟩ := split_req_loop h
  rw [htgt] at ht0
  obtain rfl := Option.some.inj ht0
  obtain ⟨b, hb, hrb⟩ := hall i hi
  refine ⟨b, hb, by simp [hiods, hlen], by simp [hiods, hrb], ?_, ?_⟩
  · intro hn
    simp [hcsums, hsegs, hn]
  · intro cs hcs
    have hsome : ∀ r ∈ rs, (r.2.1).isSome = true := by
      intro r hr
      obtain ⟨j, hj, hjr⟩ := List.getElem_of_mem hr
      obtain ⟨c, hc1, hc2⟩ := hall j (by omega)
      have : rs[j]? = some rs[j] := List.getElem?_eq_getElem hj
      rw [this] at hc2
      obtain rfl := Option.some.inj hc2
      rw [hcs] at hc1
      rw [← hjr]
      exact split_iod_csum_some hc1
    obtain ⟨hfl, hfi⟩ := filterMap_all_some (fun r : daos_iod_t × Option dcs_iod_csums ×
      dcs_csum_info => r.2.1) rs hsome
    refine ⟨rs.filterMap (fun r => r.2.1), rs.map (fun r => r.2.2), by simp [hcsums, hcs],
      by rw [hfl, hlen], ?_, by simp [hsegs, hcs], by simp [hlen], by simp [hrb]⟩
    rw [hfi i, hrb]
    rfl

/-- Lines 136-146: a single-value checksum with more than one chunk. -/
theorem split_singv_csum_many {m i : Nat} {c : dcs_iod_csums} {ci : dcs_csum_info}
    {r : dcs_iod_csums × dcs_csum_info}
    (h : split_singv_csum m i c = .ok r) (hci : c.ic_data.rd0 = .ok ci)
    (hnr : ci.cs_nr > 1) :
    c.ic_nr = 1 ∧ ci.cs_nr = u32 (m + 1) ∧
    r.1 = { c with ic_data := .singv i } ∧
    r.2 = { ci with
            cs_nr := 1
            cs_csum := ci.cs_csum + u32 (m * ci.cs_len)
            cs_buf_len := ci.cs_len } := by
  unfold split_singv_csum at h
  cases h1 : D_ASSERT (decide (c.ic_nr = 1)) with
  | error e => simp [h1] at h
  | ok u =>
    have h1b : c.ic_nr = 1 := by
      have := (D_ASSERT_ok_iff _).1 h1
      simpa using this
    cases h2 : D_ASSERT (decide (ci.cs_nr = u32 (m + 1))) with
    | error e => simp [h1, hci, hnr, h2] at h
    | ok u2 =>
      have h2b : ci.cs_nr = u32 (m + 1) := by
        have := (D_ASSERT_ok_iff _).1 h2
        simpa using this
      simp [h1, hci, hnr, h2] at h
      subst h
      exact ⟨h1b, h2b, rfl, rfl⟩

/-- Lines 134-136: a single-value checksum that was not split into chunks. -/
theorem split_singv_csum_one {m i : Nat} {c : dcs_iod_csums} {ci : dcs_csum_info}
    {r : dcs_iod_csums × dcs_csum_info}
    (h : split_singv_csum m i c = .ok r) (hci : c.ic_data.rd0 = .ok ci)
    (hnr : ci.cs_nr ≤ 1) :
    c.ic_nr = 1 ∧ r.1 = c ∧ r.2 = dcs_csum_info.zero := by
  unfold split_singv_csum at h
  cases h1 : D_ASSERT (decide (c.ic_nr = 1)) with
  | error e => simp [h1] at h
  | ok u =>
    have h1b : c.ic_nr = 1 := by
      have := (D_ASSERT_ok_iff _).1 h1
      simpa using this
    have hn : ¬ ci.cs_nr > 1 := by omega
    simp [h1, hci, hn] at h
    subst h
    exact ⟨h1b, rfl, rfl⟩

theorem setbit_ok {a b : List Nat} {i : Nat} (h : setbit a i = .ok b) :
    i / 8 < a.length ∧ b.length = a.length := by
  unfold setbit at h
  cases hg : a[i / 8]? with
  | none => simp [hg] at h
  | some x =>
    simp [hg] at h
    subst h
    have := List.getElem?_eq_some_iff.1 hg
    obtain ⟨hlt, -⟩ := this
    exact ⟨hlt, by simp⟩

theorem fw_tgts_loop_length (fw : List daos_shard_tgt) (s m : Nat) :
    ∀ (n i : Nat) (bm bm1 : List Nat), fw_tgts_loop fw s m i n bm = .ok bm1 →
      bm1.length = bm.length := by
  intro n
  induction n with
  | zero =>
    intro i bm bm1 h
    simp [fw_tgts_loop] at h
    subst h; rfl
  | succ n ih =>
    intro i bm bm1 h
    unfold fw_tgts_loop at h
    cases h1 : rd fw i with
    | error e => simp [h1] at h
    | ok t =>
      cases h2 : D_ASSERT (decide (u32_sub t.st_shard s < m)) with
      | error e => simp [h1, h2] at h
      | ok u =>
        cases h3 : setbit bm (u32_sub t.st_shard s) with
        | error e => simp [h1, h2, h3] at h
        | ok bm2 =>
          simp only [h1, h2, h3] at h
          rw [ih _ _ _ h, (setbit_ok h3).2]

/-- A bitmap that was built has `OBJ_TGT_BITMAP_LEN` bytes and room for the
leader's bit. -/
theorem build_bitmap_bound {env : Env} {orw : obj_rw_in} {bm : List Nat}
    (h : build_bitmap env orw = .ok bm) :
    bm.length = env.OBJ_TGT_BITMAP_LEN ∧ tgt_max_idx orw / 8 < env.OBJ_TGT_BITMAP_LEN := by
  unfold build_bitmap at h
  cases h1 : fw_tgts_loop orw.orw_shard_tgts.ca_arrays orw.orw_start_shard
      (tgt_max_idx orw) 0 (tgt_nr orw) (List.replicate env.OBJ_TGT_BITMAP_LEN 0) with
  | error e => simp [h1] at h
  | ok bm1 =>
    simp only [h1] at h
    have hl := fw_tgts_loop_length _ _ _ _ _ _ _ h1
    obtain ⟨hb, hl2⟩ := setbit_ok h
    simp at hl
    exact ⟨by rw [hl2, hl], by rw [← hl]; exact hb⟩

/-! ## The trimmed IODs -/

/-- C1. Ranged case: on a successful split, for an IOD index `i` whose entry in
the Target-OIOD entry of the target being split is not flagged single-value and
whose SIOD `(siod_idx, siod_nr)` lies inside the original IOD's extent sequence,
trimmed IOD `i` has `iod_nr = siod_nr`, and when the original IOD has record
extents (an array of fewer than `2 ^ 32` elements, as its 32-bit count demands)
the trimmed pointer is the original one advanced by `siod_idx`, so that the
trimmed extent sequence is the original's sub-sequence of `siod_nr` elements
starting at `siod_idx`, same order and values. -/
theorem ranged_iod_is_subsequence
    (env : Env) (orw : obj_rw_in) (req : obj_ec_split_req) (tgt_oiod : obj_tgt_oiod)
    (i : Nat) (iod : daos_iod_t) (oiod : obj_io_desc) (siod : obj_shard_iod)
    (hrun : (obj_ec_rw_req_split env orw).split_req = some req)
    (htgt : split_tgt_oiod env orw req = some tgt_oiod)
    (hi : i < orw.orw_nr)
    (hiod : orw.orw_iod_array.oia_iods[i]? = some iod)
    (hoiod : tgt_oiod.oto_oiods[i]? = some oiod)
    (hflag : oiod.oiod_flags &&& env.OBJ_SIOD_SINGV = 0)
    (hsiod : oiod.oiod_siods[0]? = some siod) :
    ∃ t, req.osr_iods[i]? = some t ∧ t.iod_nr = siod.siod_nr ∧
      ∀ p, iod.iod_recxs = some p → p.base.length < 2 ^ 32 →
        siod.siod_idx + siod.siod_nr ≤ (p.view iod.iod_nr).length →
        t.iod_recxs = some ⟨p.base, p.off + siod.siod_idx⟩ ∧
        (ArrPtr.mk p.base (p.off + siod.siod_idx)).view t.iod_nr =
          ((p.view iod.iod_nr).drop siod.siod_idx).take siod.siod_nr ∧
        ((ArrPtr.mk p.base (p.off + siod.siod_idx)).view t.iod_nr).length = siod.siod_nr ∧
        ∀ j, j < siod.siod_nr →
          ((ArrPtr.mk p.base (p.off + siod.siod_idx)).view t.iod_nr)[j]? =
            (p.view iod.iod_nr)[siod.siod_idx + j]? := by
  obtain ⟨t0, rs, ht0, -, hlen, hall, -, hiods, -, -, -⟩ := split_req_loop hrun
  rw [htgt] at ht0
  obtain rfl := Option.some.inj ht0
  obtain ⟨b, hb, hrb⟩ := hall i hi
  obtain ⟨hnr, hrecx, -, -⟩ := split_iod_ranged hb hiod hoiod hflag hsiod
  refine ⟨b.1, by simp [hiods, hrb], hnr, ?_⟩
  intro p hp hlen32 hin
  obtain ⟨q, hq, hbq⟩ := hrecx p hp
  have hin2 : p.off + siod.siod_idx ≤ p.base.length := by
    simp only [ArrPtr.view, List.length_take, List.length_drop] at hin
    by_cases hoff : p.off ≤ p.base.length
    · omega
    · have h0 : siod.siod_idx = 0 := by omega
      have hb0 := addr_ok_bound hq
      rw [h0] at hb0
      have : int_of_u32 0 = 0 := by decide
      rw [this] at hb0
      omega
  have hqeq := addr_int_of_u32 hq hin2 hlen32
  subst hqeq
  have hview : (ArrPtr.mk p.base (p.off + siod.siod_idx)).view b.1.iod_nr =
      ((p.view iod.iod_nr).drop siod.siod_idx).take siod.siod_nr := by
    rw [hnr]
    exact view_window p.base p.off iod.iod_nr siod.siod_idx siod.siod_nr hin
  refine ⟨hbq, hview, ?_, ?_⟩
  · rw [hview]
    simp only [List.length_take, List.length_drop]
    omega
  · intro j hj
    rw [hview, List.getElem?_take, if_pos hj, List.getElem?_drop]

/-- The scenario of C1: extents `[(0,10),(10,10),(20,10),(30,10)]` with the
leader's SIOD `(2, 2)` give the trimmed extents `[(20,10),(30,10)]`. -/
theorem ranged_iod_is_subsequence_witness :
    (obj_ec_rw_req_split env4 (orw4 false)).split_req = some req4 ∧
    ∃ t, req4.osr_iods[0]? = some t ∧ t.iod_nr = 2 ∧
      ∀ p, iod4.iod_recxs = some p → p.base.length < 2 ^ 32 →
        2 + 2 ≤ (p.view iod4.iod_nr).length →
        t.iod_recxs = some ⟨p.base, p.off + 2⟩ ∧
        (ArrPtr.mk p.base (p.off + 2)).view t.iod_nr =
          ((p.view iod4.iod_nr).drop 2).take 2 ∧
        ((ArrPtr.mk p.base (p.off + 2)).view t.iod_nr).length = 2 ∧
        ∀ j, j < 2 →
          ((ArrPtr.mk p.base (p.off + 2)).view t.iod_nr)[j]? =
            (p.view iod4.iod_nr)[2 + j]? :=
  ⟨rfl, ranged_iod_is_subsequence env4 (orw4 false) req4 ⟨1, [20], [⟨1, 0, [⟨1, 2, 2, 20⟩]⟩]⟩
    0 iod4 ⟨1, 0, [⟨1, 2, 2, 20⟩]⟩ ⟨1, 2, 2, 20⟩ rfl rfl (by decide) rfl rfl rfl rfl⟩

/-- C2. Single-value checksum derivation: on a successful split, for an IOD
flagged single-value whose single checksum info `ci` has `cs_nr > 1`, the chunk
count equals the leader's rank plus one, the trimmed checksum entry points at
slot `i` of `osr_singv_cis`, and that slot is `ci` with `cs_csum` advanced by
`rank * cs_len`, `cs_buf_len = cs_len` and `cs_nr = 1`, every other field
unchanged.  The rank is `tgt_max_idx`; the bitmap constant and the 16-bit width of
`cs_len`, both declared outside `srv_ec.c`, keep the 32-bit product from
wrapping. -/
theorem singv_csum_derived_segment
    (env : Env) (orw : obj_rw_in) (req : obj_ec_split_req) (tgt_oiod : obj_tgt_oiod)
    (i : Nat) (oiod : obj_io_desc) (cs : List dcs_iod_csums) (c : dcs_iod_csums)
    (ci : dcs_csum_info)
    (hrun : (obj_ec_rw_req_split env orw).split_req = some req)
    (htgt : split_tgt_oiod env orw req = some tgt_oiod)
    (hi : i < orw.orw_nr)
    (hoiod : tgt_oiod.oto_oiods[i]? = some oiod)
    (hflag : oiod.oiod_flags &&& env.OBJ_SIOD_SINGV ≠ 0)
    (hcs : orw.orw_iod_array.oia_iod_csums = some cs)
    (hc : cs[i]? = some c)
    (hci : c.ic_data.rd0 = .ok ci)
    (hnr : ci.cs_nr > 1)
    (hL : env.OBJ_TGT_BITMAP_LEN * 8 * 2 ^ 16 ≤ 2 ^ 32)
    (hlen : ci.cs_len < 2 ^ 16) :
    ci.cs_nr = tgt_max_idx orw + 1 ∧
    ∃ scs segs, req.osr_iod_csums = some scs ∧ req.osr_singv_cis = some segs ∧
      scs[i]? = some { c with ic_data := .singv i } ∧
      segs[i]? = some { ci with
                        cs_csum := ci.cs_csum + tgt_max_idx orw * ci.cs_len
                        cs_buf_len := ci.cs_len
                        cs_nr := 1 } := by
  obtain ⟨b, hb, -, -, -, hcsum⟩ := split_req_at hrun htgt hi
  obtain ⟨scs, segs, h1, -, h2, h3, -, h4⟩ := hcsum cs hcs
  obtain ⟨iod, oiod2, hiod, hoiod2, -⟩ := split_iod_fields hb
  rw [hoiod] at hoiod2
  obtain rfl := Option.some.inj hoiod2
  obtain ⟨-, -, -, -, hsv⟩ := split_iod_singv hb hiod hoiod hflag
  obtain ⟨c2, r, hc2, hr, hb1, hb2⟩ := hsv cs hcs
  rw [hc] at hc2
  obtain rfl := Option.some.inj hc2
  obtain ⟨-, hcnt, hr1, hr2⟩ := split_singv_csum_many hr hci hnr
  obtain ⟨oiods, bm, tgt_oiods, -, -, hbm, -, -⟩ := split_req_inv hrun
  obtain ⟨-, hmax⟩ := build_bitmap_bound hbm
  have hm32 : tgt_max_idx orw < 2 ^ 32 := by
    unfold tgt_max_idx u32_sub
    exact Nat.mod_lt _ (by norm_num)
  have hcnt2 : ci.cs_nr = tgt_max_idx orw + 1 := by
    rw [hcnt]
    unfold u32 at hcnt ⊢
    by_cases hw : tgt_max_idx orw + 1 < 2 ^ 32
    · exact Nat.mod_eq_of_lt hw
    · have : tgt_max_idx orw + 1 = 2 ^ 32 := by omega
      rw [this] at hcnt
      simp at hcnt
      omega
  have hprod : tgt_max_idx orw * ci.cs_len < 2 ^ 32 := by
    have h8 : tgt_max_idx orw < env.OBJ_TGT_BITMAP_LEN * 8 := by omega
    calc tgt_max_idx orw * ci.cs_len
        ≤ tgt_max_idx orw * 2 ^ 16 := Nat.mul_le_mul_left _ (Nat.le_of_lt hlen)
      _ < env.OBJ_TGT_BITMAP_LEN * 8 * 2 ^ 16 :=
          Nat.mul_lt_mul_of_pos_right h8 (by norm_num)
      _ ≤ 2 ^ 32 := hL
  have hu : u32 (tgt_max_idx orw * ci.cs_len) = tgt_max_idx orw * ci.cs_len :=
    Nat.mod_eq_of_lt hprod
  refine ⟨hcnt2, scs, segs, h1, h3, ?_, ?_⟩
  · rw [h2, hb1, hr1]
  · rw [h4, hb2, hr2, hu]

/-- C2 on the single value striped over shards 0-2: the leader (rank 2) gets the
chunk at `5000 + 2 * 4`. -/
theorem singv_csum_derived_segment_witness :
    ∃ req, (obj_ec_rw_req_split env_sv (orw_sv 3)).split_req = some req ∧
      (ci_sv 3).cs_nr = tgt_max_idx (orw_sv 3) + 1 ∧
      ∃ scs segs, req.osr_iod_csums = some scs ∧ req.osr_singv_cis = some segs ∧
        scs[0]? = some { csum_sv 3 with ic_data := .singv 0 } ∧
        segs[0]? = some ⟨5008, 1, 1, 4, 4, 0⟩ :=
  ⟨_, rfl, singv_csum_derived_segment env_sv (orw_sv 3) _ ⟨2, [0], oiods_sv⟩ 0 ⟨0, 2, []⟩
    [csum_sv 3] (csum_sv 3) (ci_sv 3) rfl rfl (by decide) rfl (by decide) rfl rfl rfl
    (by decide) (by decide) (by decide)⟩

/-- C3. Ranged checksum slicing: on a successful split of a request with
checksums, for an IOD index `i` in the ranged case whose SIOD
`(siod_idx, siod_nr)` lies inside the original entry's checksum sequence (the
data-model invariant; the array has fewer than `2 ^ 32` elements, as its 32-bit
count demands), trimmed checksum entry `i` is the original entry with
`ic_nr = siod_nr` and `ic_data` advanced by `siod_idx`: trimmed checksum `j` is
original checksum `siod_idx + j` for every `j < siod_nr`, and the remaining field
(`ic_akey`) is the original's. -/
theorem ranged_csum_is_subsequence
    (env : Env) (orw : obj_rw_in) (req : obj_ec_split_req) (tgt_oiod : obj_tgt_oiod)
    (i : Nat) (oiod : obj_io_desc) (siod : obj_shard_iod)
    (cs : List dcs_iod_csums) (c : dcs_iod_csums) (q : ArrPtr dcs_csum_info)
    (hrun : (obj_ec_rw_req_split env orw).split_req = some req)
    (htgt : split_tgt_oiod env orw req = some tgt_oiod)
    (hi : i < orw.orw_nr)
    (hoiod : tgt_oiod.oto_oiods[i]? = some oiod)
    (hflag : oiod.oiod_flags &&& env.OBJ_SIOD_SINGV = 0)
    (hsiod : oiod.oiod_siods[0]? = some siod)
    (hcs : orw.orw_iod_array.oia_iod_csums = some cs)
    (hc : cs[i]? = some c)
    (hq : c.ic_data = .data q)
    (hq32 : q.base.length < 2 ^ 32)
    (hin : siod.siod_idx + siod.siod_nr ≤ (q.view c.ic_nr).length) :
    ∃ scs sc, req.osr_iod_csums = some scs ∧ scs.length = orw.orw_nr ∧
      scs[i]? = some sc ∧
      sc = { c with ic_data := .data ⟨q.base, q.off + siod.siod_idx⟩,
                    ic_nr := siod.siod_nr } ∧
      (ArrPtr.mk q.base (q.off + siod.siod_idx)).view sc.ic_nr =
        ((q.view c.ic_nr).drop siod.siod_idx).take siod.siod_nr ∧
      ((ArrPtr.mk q.base (q.off + siod.siod_idx)).view sc.ic_nr).length = siod.siod_nr ∧
      ∀ j, j < siod.siod_nr →
        ((ArrPtr.mk q.base (q.off + siod.siod_idx)).view sc.ic_nr)[j]? =
          (q.view c.ic_nr)[siod.siod_idx + j]? := by
  obtain ⟨b, hb, -, -, -, hcsum⟩ := split_req_at hrun htgt hi
  obtain ⟨scs, segs, h1, hl, h2, -, -, -⟩ := hcsum cs hcs
  obtain ⟨iod, oiod2, hiod, hoiod2, -⟩ := split_iod_fields hb
  rw [hoiod] at hoiod2
  obtain rfl := Option.some.inj hoiod2
  obtain ⟨-, -, hcr, -⟩ := split_iod_ranged hb hiod hoiod hflag hsiod
  obtain ⟨c2, d, hc2, hd, hb1⟩ := hcr cs hcs
  rw [hc] at hc2
  obtain rfl := Option.some.inj hc2
  rw [hq] at hd
  unfold ci_ptr.addr at hd
  cases hqa : q.addr (int_of_u32 siod.siod_idx) with
  | error e => simp [hqa] at hd
  | ok r =>
    simp only [hqa] at hd
    obtain rfl := (Except.ok.inj hd).symm
    have hin2 : q.off + siod.siod_idx ≤ q.base.length := by
      simp only [ArrPtr.view, List.length_take, List.length_drop] at hin
      by_cases hoff : q.off ≤ q.base.length
      · omega
      · have h0 : siod.siod_idx = 0 := by omega
        have hb0 := addr_ok_bound hqa
        rw [h0] at hb0
        have : int_of_u32 0 = 0 := by decide
        rw [this] at hb0
        omega
    have hreq := addr_int_of_u32 hqa hin2 hq32
    subst hreq
    have hview : (ArrPtr.mk q.base (q.off + siod.siod_idx)).view siod.siod_nr =
        ((q.view c.ic_nr).drop siod.siod_idx).take siod.siod_nr :=
      view_window q.base q.off c.ic_nr siod.siod_idx siod.siod_nr hin
    refine ⟨scs, _, h1, hl, by rw [h2, hb1], rfl, hview, ?_, ?_⟩
    · show ((ArrPtr.mk q.base (q.off + siod.siod_idx)).view siod.siod_nr).length = _
      rw [hview]
      simp only [List.length_take, List.length_drop]
      omega
    · intro j hj
      show ((ArrPtr.mk q.base (q.off + siod.siod_idx)).view siod.siod_nr)[j]? = _
      rw [hview, List.getElem?_take, if_pos hj, List.getElem?_drop]

/-- C3 on the four-extent scenario with one checksum per extent: the leader's
entry designates checksums 2 and 3. -/
theorem ranged_csum_is_subsequence_witness :
    ∃ req, (obj_ec_rw_req_split env4 (orw4 true)).split_req = some req ∧
      ∃ scs sc, req.osr_iod_csums = some scs ∧ scs.length = 1 ∧
        scs[0]? = some sc ∧
        sc = ⟨dcs_csum_info.zero, .data ⟨cis4, 0 + 2⟩, 2⟩ ∧
        (ArrPtr.mk cis4 (0 + 2)).view sc.ic_nr =
          (((ArrPtr.mk cis4 0).view 4).drop 2).take 2 ∧
        ((ArrPtr.mk cis4 (0 + 2)).view sc.ic_nr).length = 2 ∧
        ∀ j, j < 2 →
          ((ArrPtr.mk cis4 (0 + 2)).view sc.ic_nr)[j]? =
            ((ArrPtr.mk cis4 0).view 4)[2 + j]? :=
  ⟨_, rfl, ranged_csum_is_subsequence env4 (orw4 true) _ ⟨1, [20], [⟨1, 0, [⟨1, 2, 2, 20⟩]⟩]⟩
    0 ⟨1, 0, [⟨1, 2, 2, 20⟩]⟩ ⟨1, 2, 2, 20⟩ [⟨dcs_csum_info.zero, .data ⟨cis4, 0⟩, 4⟩]
    ⟨dcs_csum_info.zero, .data ⟨cis4, 0⟩, 4⟩ ⟨cis4, 0⟩ rfl rfl (by decide) rfl rfl rfl rfl
    rfl rfl (by decide) (by decide)⟩

/-- C4. Single-value case: on a successful split, for an IOD index `i` whose
Target-OIOD entry is flagged single-value, the trimmed IOD has `iod_nr = 1`
whatever the original count, and its extent pointer is the original one (index
0): when the original has extents, the trimmed sequence is its first element. -/
theorem singv_iod_count_one
    (env : Env) (orw : obj_rw_in) (req : obj_ec_split_req) (tgt_oiod : obj_tgt_oiod)
    (i : Nat) (iod : daos_iod_t) (oiod : obj_io_desc)
    (hrun : (obj_ec_rw_req_split env orw).split_req = some req)
    (htgt : split_tgt_oiod env orw req = some tgt_oiod)
    (hi : i < orw.orw_nr)
    (hiod : orw.orw_iod_array.oia_iods[i]? = some iod)
    (hoiod : tgt_oiod.oto_oiods[i]? = some oiod)
    (hflag : oiod.oiod_flags &&& env.OBJ_SIOD_SINGV ≠ 0) :
    ∃ t, req.osr_iods[i]? = some t ∧ t.iod_nr = 1 ∧ t.iod_recxs = iod.iod_recxs ∧
      ∀ p, iod.iod_recxs = some p →
        p.view t.iod_nr = (p.base.drop (p.off + 0)).take 1 := by
  obtain ⟨b, hb, -, hbi, -, -⟩ := split_req_at hrun htgt hi
  obtain ⟨-, hnr, hrecx, -, -⟩ := split_iod_singv hb hiod hoiod hflag
  refine ⟨b.1, hbi, hnr, ?_, ?_⟩
  · cases hp : iod.iod_recxs with
    | none =>
      -- the trimmed pointer stays `NULL`
      have hb2 := hb
      unfold split_iod at hb2
      have h1 : rd orw.orw_iod_array.oia_iods i = .ok iod := (rd_ok_iff _ _ _).2 hiod
      have h2 : rd tgt_oiod.oto_oiods i = .ok oiod := (rd_ok_iff _ _ _).2 hoiod
      simp only [h1, h2, hp] at hb2
      repeat' (split at hb2)
      all_goals first
        | (simp at hb2; done)
        | (simp at hb2; subst hb2; simp)
    | some p =>
      obtain ⟨q, hq, hbq⟩ := hrecx p hp
      rw [hbq, addr_zero hq]
  · intro p _
    rw [hnr]
    simp [ArrPtr.view]

/-- C4 on the single-value request: original count 3, trimmed count 1. -/
theorem singv_iod_count_one_witness :
    ∃ req, (obj_ec_rw_req_split env_sv (orw_sv 3)).split_req = some req ∧
      iod_sv.iod_nr = 3 ∧
      ∃ t, req.osr_iods[0]? = some t ∧ t.iod_nr = 1 ∧ t.iod_recxs = iod_sv.iod_recxs ∧
        ∀ p, iod_sv.iod_recxs = some p →
          p.view t.iod_nr = (p.base.drop (p.off + 0)).take 1 :=
  ⟨_, rfl, rfl, singv_iod_count_one env_sv (orw_sv 3) _ ⟨2, [0], oiods_sv⟩ 0 iod_sv
    ⟨0, 2, []⟩ rfl rfl (by decide) rfl rfl (by decide)⟩

/-- C5. On a successful split of a request with `orw_nr` IODs, the split request
holds exactly `orw_nr` trimmed IODs, and trimmed IOD `i` has the name, type tag
and element size of original IOD `i` (whichever branch the IOD takes). -/
theorem trimmed_iods_copy_fields
    (env : Env) (orw : obj_rw_in) (req : obj_ec_split_req)
    (hrun : (obj_ec_rw_req_split env orw).split_req = some req) :
    req.osr_iods.length = orw.orw_nr ∧
    ∀ i, i < orw.orw_nr →
      ∃ iod t, orw.orw_iod_array.oia_iods[i]? = some iod ∧ req.osr_iods[i]? = some t ∧
        t.iod_name = iod.iod_name ∧ t.iod_type = iod.iod_type ∧
        t.iod_size = iod.iod_size := by
  obtain ⟨t0, rs, -, -, hlen, hall, -, hiods, -, -, -⟩ := split_req_loop hrun
  refine ⟨by simp [hiods, hlen], ?_⟩
  intro i hi
  obtain ⟨b, hb, hrb⟩ := hall i hi
  obtain ⟨iod, oiod, hiod, -, hn, ht, hs⟩ := split_iod_fields hb
  exact ⟨iod, b.1, hiod, by simp [hiods, hrb], hn, ht, hs⟩

/-- C5 on the four-extent scenario: one trimmed IOD, with the original's name,
type and element size. -/
theorem trimmed_iods_copy_fields_witness :
    (obj_ec_rw_req_split env4 (orw4 false)).split_req = some req4 ∧
    req4.osr_iods.length = 1 ∧
    ∀ i, i < 1 →
      ∃ iod t, [iod4][i]? = some iod ∧ req4.osr_iods[i]? = some t ∧
        t.iod_name = iod.iod_name ∧ t.iod_type = iod.iod_type ∧
        t.iod_size = iod.iod_size :=
  ⟨rfl, trimmed_iods_copy_fields env4 (orw4 false) req4 rfl⟩

/-- C6. Degenerate single-value checksum: on a successful split, for an IOD
flagged single-value whose checksum info has `cs_nr = 1`, slot `i` of
`osr_singv_cis` is left as allocated (zero-filled, no derived segment) and the
trimmed checksum entry equals the original entry: entry count 1 and the same
`ic_data` pointer, hence the same checksum info. -/
theorem singv_csum_unsplit_is_original
    (env : Env) (orw : obj_rw_in) (req : obj_ec_split_req) (tgt_oiod : obj_tgt_oiod)
    (i : Nat) (oiod : obj_io_desc) (cs : List dcs_iod_csums) (c : dcs_iod_csums)
    (ci : dcs_csum_info)
    (hrun : (obj_ec_rw_req_split env orw).split_req = some req)
    (htgt : split_tgt_oiod env orw req = some tgt_oiod)
    (hi : i < orw.orw_nr)
    (hoiod : tgt_oiod.oto_oiods[i]? = some oiod)
    (hflag : oiod.oiod_flags &&& env.OBJ_SIOD_SINGV ≠ 0)
    (hcs : orw.orw_iod_array.oia_iod_csums = some cs)
    (hc : cs[i]? = some c)
    (hci : c.ic_data.rd0 = .ok ci)
    (hone : ci.cs_nr = 1) :
    ∃ scs segs sc, req.osr_iod_csums = some scs ∧ req.osr_singv_cis = some segs ∧
      scs[i]? = some sc ∧ sc = c ∧ sc.ic_nr = 1 ∧ sc.ic_data.rd0 = .ok ci ∧
      segs[i]? = some dcs_csum_info.zero := by
  obtain ⟨b, hb, -, -, -, hcsum⟩ := split_req_at hrun htgt hi
  obtain ⟨scs, segs, h1, -, h2, h3, -, h4⟩ := hcsum cs hcs
  obtain ⟨iod, oiod2, hiod, hoiod2, -⟩ := split_iod_fields hb
  rw [hoiod] at hoiod2
  obtain rfl := Option.some.inj hoiod2
  obtain ⟨-, -, -, -, hsv⟩ := split_iod_singv hb hiod hoiod hflag
  obtain ⟨c2, r, hc2, hr, hb1, hb2⟩ := hsv cs hcs
  rw [hc] at hc2
  obtain rfl := Option.some.inj hc2
  obtain ⟨hnr1, hr1, hr2⟩ := split_singv_csum_one hr hci (by omega)
  exact ⟨scs, segs, c, h1, h3, by rw [h2, hb1, hr1], rfl, hnr1, hci, by rw [h4, hb2, hr2]⟩

/-- C6 on the single-value request with an unsplit checksum. -/
theorem singv_csum_unsplit_is_original_witness :
    ∃ req, (obj_ec_rw_req_split env_sv (orw_sv 1)).split_req = some req ∧
      ∃ scs segs sc, req.osr_iod_csums = some scs ∧ req.osr_singv_cis = some segs ∧
        scs[0]? = some sc ∧ sc = csum_sv 1 ∧ sc.ic_nr = 1 ∧
        sc.ic_data.rd0 = .ok (ci_sv 1) ∧ segs[0]? = some dcs_csum_info.zero :=
  ⟨_, rfl, singv_csum_unsplit_is_original env_sv (orw_sv 1) _ ⟨2, [0], oiods_sv⟩ 0
    ⟨0, 2, []⟩ [csum_sv 1] (csum_sv 1) (ci_sv 1) rfl rfl (by decide) rfl (by decide) rfl rfl
    rfl rfl⟩

/-! ## Allocation failures -/

/-- C8. Main-buffer allocation failure: when the assertions on entry hold and
`D_ALLOC` fails, the call returns `-DER_NOMEM`, stores nothing through
`split_req`, and its only allocator-related call is the failed allocation, so
the Target-OIOD table constructor is never invoked. -/
theorem alloc_failure_returns_nomem
    (env : Env) (orw : obj_rw_in) (oiods : List obj_io_desc)
    (hpre : pre_asserts env orw = .ok oiods)
    (hfail : env.D_ALLOC (alloc_size env orw) = false) :
    (obj_ec_rw_req_split env orw).outcome = .returned (-(env.DER_NOMEM : Int)) ∧
    (obj_ec_rw_req_split env orw).split_req = none ∧
    (obj_ec_rw_req_split env orw).trace = [.alloc (alloc_size env orw) false] ∧
    ∀ bm m n ok, Event.tgt_oiod_init bm m n ok ∉ (obj_ec_rw_req_split env orw).trace := by
  have hrun : obj_ec_rw_req_split env orw =
      ⟨.returned (-(env.DER_NOMEM : Int)), none, [.alloc (alloc_size env orw) false]⟩ := by
    simp [obj_ec_rw_req_split, hpre, hfail]
  rw [hrun]
  refine ⟨rfl, rfl, rfl, ?_⟩
  intro bm m n ok
  simp

/-- C8 on the four-extent scenario with a failing allocator. -/
theorem alloc_failure_returns_nomem_witness :
    (obj_ec_rw_req_split env_nomem (orw4 true)).outcome = .returned (-(1009 : Int)) ∧
    (obj_ec_rw_req_split env_nomem (orw4 true)).split_req = none ∧
    (obj_ec_rw_req_split env_nomem (orw4 true)).trace =
      [.alloc (alloc_size env_nomem (orw4 true)) false] ∧
    ∀ bm m n ok,
      Event.tgt_oiod_init bm m n ok ∉ (obj_ec_rw_req_split env_nomem (orw4 true)).trace :=
  alloc_failure_returns_nomem env_nomem (orw4 true) oiods4 rfl rfl

/-- C9. Failure of the Target-OIOD table: when the main buffer was allocated,
the assertions up to the table construction hold and the constructor returns
`NULL`, the call returns `-DER_NOMEM`, releases the main buffer exactly once (then
hands the null table to `obj_ec_tgt_oiod_fini`) and stores nothing through
`split_req`.  Conversely, when both allocations succeed and no assertion stops
the call, it returns 0 and stores a split request that refers to the table. -/
theorem tgt_oiod_failure_is_atomic (env : Env) (orw : obj_rw_in)
    (oiods : List obj_io_desc) (bm : List Nat)
    (hnz : env.DER_NOMEM ≠ 0)
    (hpre : pre_asserts env orw = .ok oiods)
    (halloc : env.D_ALLOC (alloc_size env orw) = true)
    (hbm : build_bitmap env orw = .ok bm) :
    (env.obj_ec_tgt_oiod_init oiods orw.orw_nr bm (tgt_max_idx orw)
        (u32 (tgt_nr orw + 1)) = none →
      (obj_ec_rw_req_split env orw).outcome = .returned (-(env.DER_NOMEM : Int)) ∧
      (obj_ec_rw_req_split env orw).split_req = none ∧
      (obj_ec_rw_req_split env orw).trace =
        [.alloc (alloc_size env orw) true,
         .tgt_oiod_init bm (tgt_max_idx orw) (u32 (tgt_nr orw + 1)) false,
         .free_buf, .tgt_oiod_fini none] ∧
      (obj_ec_rw_req_split env orw).trace.count .free_buf = 1) ∧
    (∀ tgt_oiods,
      env.obj_ec_tgt_oiod_init oiods orw.orw_nr bm (tgt_max_idx orw)
        (u32 (tgt_nr orw + 1)) = some tgt_oiods →
      (∀ f, (obj_ec_rw_req_split env orw).outcome ≠ .aborted f) →
      (obj_ec_rw_req_split env orw).outcome = .returned 0 ∧
      (∃ req, (obj_ec_rw_req_split env orw).split_req = some req ∧
        req.osr_tgt_oiods = tgt_oiods) ∧
      Event.free_buf ∉ (obj_ec_rw_req_split env orw).trace) := by
  constructor
  · intro hinit
    have hne : (-(env.DER_NOMEM : Int)) ≠ 0 := by
      simpa using hnz
    have hrun : obj_ec_rw_req_split env orw =
        ⟨.returned (-(env.DER_NOMEM : Int)), none,
          [.alloc (alloc_size env orw) true,
           .tgt_oiod_init bm (tgt_max_idx orw) (u32 (tgt_nr orw + 1)) false,
           .free_buf, .tgt_oiod_fini none]⟩ := by
      unfold obj_ec_rw_req_split
      simp only [hpre, halloc, hbm, hinit]
      simp [hnz]
    rw [hrun]
    refine ⟨rfl, rfl, rfl, ?_⟩
    simp [List.count_cons]
  · intro tgt_oiods hinit hna
    cases hasm : assemble env orw tgt_oiods with
    | error f =>
      exfalso
      apply hna f
      simp [obj_ec_rw_req_split, hpre, halloc, hbm, hinit, hasm]
    | ok req =>
      rw [run_of_ok hpre halloc hbm hinit hasm]
      obtain ⟨t, rs, -, -, -, hreq⟩ := assemble_inv hasm
      refine ⟨rfl, ⟨req, rfl, by rw [hreq]⟩, by simp⟩

/-- C9 on the four-extent scenario: once with a failing table constructor, once
with both allocations succeeding. -/
theorem tgt_oiod_failure_is_atomic_witness :
    ((obj_ec_rw_req_split env_notbl (orw4 true)).outcome = .returned (-(1009 : Int)) ∧
      (obj_ec_rw_req_split env_notbl (orw4 true)).split_req = none ∧
      (obj_ec_rw_req_split env_notbl (orw4 true)).trace =
        [.alloc (alloc_size env_notbl (orw4 true)) true,
         .tgt_oiod_init [3, 0, 0, 0, 0, 0, 0, 0, 0, 0, 0, 0, 0, 0, 0, 0] 1 2 false,
         .free_buf, .tgt_oiod_fini none] ∧
      (obj_ec_rw_req_split env_notbl (orw4 true)).trace.count .free_buf = 1) ∧
    ((obj_ec_rw_req_split env4 (orw4 false)).outcome = .returned 0 ∧
      (∃ req, (obj_ec_rw_req_split env4 (orw4 false)).split_req = some req ∧
        req.osr_tgt_oiods = tbl4) ∧
      Event.free_buf ∉ (obj_ec_rw_req_split env4 (orw4 false)).trace) :=
  ⟨(tgt_oiod_failure_is_atomic env_notbl (orw4 true) oiods4
      [3, 0, 0, 0, 0, 0, 0, 0, 0, 0, 0, 0, 0, 0, 0, 0] (by decide) rfl rfl rfl).1 rfl,
   (tgt_oiod_failure_is_atomic env4 (orw4 false) oiods4
      [3, 0, 0, 0, 0, 0, 0, 0, 0, 0, 0, 0, 0, 0, 0, 0] (by decide) rfl rfl rfl).2 tbl4 rfl
      (by intro f h; exact Outcome.noConfusion h)⟩

/-! ## Reassembling the extents -/

/-- C7 fails as stated: in the four-extent scenario the call succeeds and
produces one split request, the leader's, whose trimmed extents are
`[(20,10),(30,10)]`; concatenating the extents of all produced split requests
does not give back the original four extents. -/
theorem roundtrip_counterexample :
    (obj_ec_rw_req_split env4 (orw4 false)).outcome = .returned 0 ∧
    produced_split_reqs env4 (orw4 false) = [req4] ∧
    ((produced_split_reqs env4 (orw4 false)).map (fun r => trimmed_recxs r 0)).flatten
      = [⟨20, 10⟩, ⟨30, 10⟩] ∧
    iod_recx_seq iod4 = [⟨0, 10⟩, ⟨10, 10⟩, ⟨20, 10⟩, ⟨30, 10⟩] ∧
    ((produced_split_reqs env4 (orw4 false)).map (fun r => trimmed_recxs r 0)).flatten
      ≠ iod_recx_seq iod4 := by
  refine ⟨rfl, rfl, rfl, rfl, ?_⟩
  decide

/-- C7 as amended. For every request on which the split succeeds and every array
IOD `i` with record extents, the leader's SIOD `(siod_idx, siod_nr)` lying inside
the IOD's extent sequence: the call produces exactly one split request, the
leader's, and concatenating the trimmed record extents of all split requests
produced reproduces the part of the original IOD's extent sequence that this
SIOD designates, the `siod_nr` elements from index `siod_idx`, in the same order
and with the same values.  The concatenation is the whole original sequence
exactly when the leader's SIOD is the whole sequence (`siod_idx = 0` and
`siod_nr` the number of extents). -/
theorem produced_extents_are_leader_window
    (env : Env) (orw : obj_rw_in) (req : obj_ec_split_req) (tgt_oiod : obj_tgt_oiod)
    (i : Nat) (iod : daos_iod_t) (oiod : obj_io_desc) (siod : obj_shard_iod)
    (p : ArrPtr daos_recx_t)
    (hrun : (obj_ec_rw_req_split env orw).split_req = some req)
    (htgt : split_tgt_oiod env orw req = some tgt_oiod)
    (hi : i < orw.orw_nr)
    (hiod : orw.orw_iod_array.oia_iods[i]? = some iod)
    (harr : iod.iod_type = .DAOS_IOD_ARRAY)
    (hoiod : tgt_oiod.oto_oiods[i]? = some oiod)
    (hsiod : oiod.oiod_siods[0]? = some siod)
    (hp : iod.iod_recxs = some p)
    (h32 : p.base.length < 2 ^ 32)
    (hin : siod.siod_idx + siod.siod_nr ≤ (iod_recx_seq iod).length) :
    produced_split_reqs env orw = [req] ∧
    ((produced_split_reqs env orw).map (fun r => trimmed_recxs r i)).flatten =
      ((iod_recx_seq iod).drop siod.siod_idx).take siod.siod_nr ∧
    (((produced_split_reqs env orw).map (fun r => trimmed_recxs r i)).flatten).length =
      siod.siod_nr ∧
    (∀ j, j < siod.siod_nr →
      (((produced_split_reqs env orw).map (fun r => trimmed_recxs r i)).flatten)[j]? =
        (iod_recx_seq iod)[siod.siod_idx + j]?) ∧
    (((produced_split_reqs env orw).map (fun r => trimmed_recxs r i)).flatten =
        iod_recx_seq iod ↔
      siod.siod_idx = 0 ∧ siod.siod_nr = (iod_recx_seq iod).length) := by
  obtain ⟨b, hb, -, hbi, -, -⟩ := split_req_at hrun htgt hi
  have hflag : oiod.oiod_flags &&& env.OBJ_SIOD_SINGV = 0 := by
    by_contra hne
    have hsingle := (split_iod_singv hb hiod hoiod hne).1
    rw [harr] at hsingle
    exact daos_iod_type_t.noConfusion hsingle
  obtain ⟨hnr, hrecx, -, -⟩ := split_iod_ranged hb hiod hoiod hflag hsiod
  obtain ⟨q, hq, hbq⟩ := hrecx p hp
  have hseq : iod_recx_seq iod = p.view iod.iod_nr := by
    simp [iod_recx_seq, hp]
  rw [hseq] at hin ⊢
  have hin2 : p.off + siod.siod_idx ≤ p.base.length := by
    have hin' := hin
    simp only [ArrPtr.view, List.length_take, List.length_drop] at hin'
    by_cases hoff : p.off ≤ p.base.length
    · omega
    · have h0 : siod.siod_idx = 0 := by omega
      have hb0 := addr_ok_bound hq
      rw [h0] at hb0
      have : int_of_u32 0 = 0 := by decide
      rw [this] at hb0
      omega
  have hqeq := addr_int_of_u32 hq hin2 h32
  subst hqeq
  have hprod : produced_split_reqs env orw = [req] := by
    simp [produced_split_reqs, hrun]
  have hflat : ((produced_split_reqs env orw).map (fun r => trimmed_recxs r i)).flatten =
      ((p.view iod.iod_nr).drop siod.siod_idx).take siod.siod_nr := by
    rw [hprod]
    simp only [List.map_cons, List.map_nil, List.flatten_cons, List.flatten_nil,
      List.append_nil]
    simp only [trimmed_recxs, hbi, iod_recx_seq, hbq, hnr]
    exact view_window p.base p.off iod.iod_nr siod.siod_idx siod.siod_nr hin
  have hlen : (((p.view iod.iod_nr).drop siod.siod_idx).take siod.siod_nr).length =
      siod.siod_nr := by
    simp only [List.length_take, List.length_drop]
    omega
  rw [hflat]
  refine ⟨hprod, rfl, hlen, ?_, ?_⟩
  · intro j hj
    rw [List.getElem?_take, if_pos hj, List.getElem?_drop]
  · constructor
    · intro heq
      have hl := congrArg List.length heq
      rw [hlen] at hl
      exact ⟨by omega, hl⟩
    · rintro ⟨h0, hn⟩
      rw [h0, hn, List.drop_zero, List.take_length]

/-- C7 as amended, on the four-extent scenario: the one split request produced
carries `[(20,10),(30,10)]`, the two extents from index 2 of the original four;
this is not the whole sequence because the leader's SIOD starts at index 2. -/
theorem produced_extents_are_leader_window_witness :
    iod_recx_seq iod4 = recxs4 ∧
    produced_split_reqs env4 (orw4 false) = [req4] ∧
    ((produced_split_reqs env4 (orw4 false)).map (fun r => trimmed_recxs r 0)).flatten =
      ((iod_recx_seq iod4).drop 2).take 2 ∧
    (((produced_split_reqs env4 (orw4 false)).map (fun r => trimmed_recxs r 0)).flatten).length
      = 2 ∧
    (∀ j, j < 2 →
      (((produced_split_reqs env4 (orw4 false)).map (fun r => trimmed_recxs r 0)).flatten)[j]? =
        (iod_recx_seq iod4)[2 + j]?) ∧
    (((produced_split_reqs env4 (orw4 false)).map (fun r => trimmed_recxs r 0)).flatten =
        iod_recx_seq iod4 ↔
      2 = 0 ∧ 2 = (iod_recx_seq iod4).length) :=
  ⟨rfl,
   produced_extents_are_leader_window env4 (orw4 false) req4
     ⟨1, [20], [⟨1, 0, [⟨1, 2, 2, 20⟩]⟩]⟩ 0 iod4 ⟨1, 0, [⟨1, 2, 2, 20⟩]⟩ ⟨1, 2, 2, 20⟩
     ⟨recxs4, 0⟩ rfl rfl (by decide) rfl rfl rfl rfl rfl (by decide) (by decide)⟩

/-! ## The target bitmap -/

theorem bit_at_replicate_zero (n j : Nat) : bit_at (List.replicate n 0) j = false := by
  unfold bit_at
  have : (List.replicate n 0).getD (j / 8) 0 = 0 := by
    rw [List.getD_eq_getElem?_getD, List.getElem?_replicate]
    split <;> rfl
  rw [this]
  simp

/-- A set bit lies inside the bitmap. -/
theorem bit_at_lt {a : List Nat} {j : Nat} (h : bit_at a j = true) : j < 8 * a.length := by
  unfold bit_at at h
  by_contra hge
  have hlen : a.length ≤ j / 8 := by omega
  have : a.getD (j / 8) 0 = 0 := by
    rw [List.getD_eq_getElem?_getD, List.getElem?_eq_none hlen]
    rfl
  rw [this] at h
  simp at h

/-- After `setbit(a, i)` exactly bit `i` has been added. -/
theorem bit_at_setbit {a b : List Nat} {i : Nat} (h : setbit a i = .ok b) (j : Nat) :
    bit_at b j = (decide (j = i) || bit_at a j) := by
  unfold setbit at h
  cases hg : a[i / 8]? with
  | none => simp [hg] at h
  | some x =>
    simp only [hg] at h
    have hb := (Except.ok.inj h).symm
    subst hb
    obtain ⟨hlt, hx⟩ := List.getElem?_eq_some_iff.1 hg
    unfold bit_at
    by_cases hbyte : j / 8 = i / 8
    · have h1 : (a.set (i / 8) ((x ||| 1 <<< (i % 8)) % 256)).getD (j / 8) 0 =
          (x ||| 1 <<< (i % 8)) % 256 := by
        rw [List.getD_eq_getElem?_getD, hbyte, List.getElem?_set_self hlt]
        rfl
      have h2 : a.getD (j / 8) 0 = x := by
        rw [List.getD_eq_getElem?_getD, hbyte, hg]
        rfl
      rw [h1, h2]
      have h256 : (256 : Nat) = 2 ^ 8 := by norm_num
      rw [h256, Nat.testBit_mod_two_pow, Nat.testBit_or, Nat.one_shiftLeft,
        Nat.testBit_two_pow]
      have hj8 : j % 8 < 8 := Nat.mod_lt _ (by norm_num)
      have hiff : (i % 8 = j % 8) ↔ (j = i) := by
        constructor
        · intro h8; omega
        · intro hji; rw [hji]
      simp only [hj8, decide_True, Bool.true_and]
      by_cases hji : j = i
      · have : i % 8 = j % 8 := hiff.2 hji
        simp [hji]
      · have : ¬ i % 8 = j % 8 := fun h8 => hji (hiff.1 h8)
        simp [hji, this]
    · have hne : j ≠ i := by
        intro hji; apply hbyte; rw [hji]
      have h1 : (a.set (i / 8) ((x ||| 1 <<< (i % 8)) % 256)).getD (j / 8) 0 =
          a.getD (j / 8) 0 := by
        rw [List.getD_eq_getElem?_getD, List.getD_eq_getElem?_getD,
          List.getElem?_set_ne (Ne.symm hbyte)]
      rw [h1]
      simp [hne]

/-- What the loop over the forward targets did when it finished. -/
theorem fw_tgts_loop_bits (fw : List daos_shard_tgt) (s m : Nat) :
    ∀ (n i : Nat) (bm bm1 : List Nat), fw_tgts_loop fw s m i n bm = .ok bm1 →
      ((fw.drop i).take n).length = n ∧
      (∀ x ∈ ((fw.drop i).take n).map (fun t => u32_sub t.st_shard s), x < m) ∧
      ∀ j, bit_at bm1 j =
        (bit_at bm j || decide (j ∈ ((fw.drop i).take n).map (fun t => u32_sub t.st_shard s)))
    := by
  intro n
  induction n with
  | zero =>
    intro i bm bm1 h
    simp [fw_tgts_loop] at h
    subst h
    exact ⟨by simp, by simp, by simp⟩
  | succ n ih =>
    intro i bm bm1 h
    unfold fw_tgts_loop at h
    cases h1 : rd fw i with
    | error e => simp [h1] at h
    | ok t =>
      cases h2 : D_ASSERT (decide (u32_sub t.st_shard s < m)) with
      | error e => simp [h1, h2] at h
      | ok u =>
        cases h3 : setbit bm (u32_sub t.st_shard s) with
        | error e => simp [h1, h2, h3] at h
        | ok bm2 =>
          simp only [h1, h2, h3] at h
          obtain ⟨hlen, hlt, hbits⟩ := ih _ _ _ h
          have hfi := (rd_ok_iff _ _ _).1 h1
          obtain ⟨hil, hget⟩ := List.getElem?_eq_some_iff.1 hfi
          have hm : u32_sub t.st_shard s < m := by
            have := (D_ASSERT_ok_iff _).1 h2
            simpa using this
          have hdrop : fw.drop i = t :: fw.drop (i + 1) := by
            rw [← hget]
            exact List.drop_eq_getElem_cons hil
          refine ⟨by rw [hdrop, List.take_succ_cons, List.length_cons, hlen], ?_, ?_⟩
          · intro x hx
            rw [hdrop, List.take_succ_cons, List.map_cons, List.mem_cons] at hx
            rcases hx with rfl | hx
            · exact hm
            · exact hlt x hx
          · intro j
            rw [hbits j, bit_at_setbit h3 j, hdrop, List.take_succ_cons, List.map_cons]
            simp only [List.mem_cons, Bool.decide_or]
            cases bit_at bm j <;> simp

/-- The bits of a bitmap that was built: the leader's and the forward targets'. -/
theorem build_bitmap_bits {env : Env} {orw : obj_rw_in} {bm : List Nat}
    (h : build_bitmap env orw = .ok bm) :
    (fw_offsets orw).length = tgt_nr orw ∧
    (∀ x ∈ fw_offsets orw, x < tgt_max_idx orw) ∧
    ∀ j, bit_at bm j = (decide (j = tgt_max_idx orw) || decide (j ∈ fw_offsets orw)) := by
  unfold build_bitmap at h
  cases h1 : fw_tgts_loop orw.orw_shard_tgts.ca_arrays orw.orw_start_shard
      (tgt_max_idx orw) 0 (tgt_nr orw) (List.replicate env.OBJ_TGT_BITMAP_LEN 0) with
  | error e => simp [h1] at h
  | ok bm1 =>
    simp only [h1] at h
    obtain ⟨hlen, hlt, hbits⟩ := fw_tgts_loop_bits _ _ _ _ _ _ _ h1
    simp only [List.drop_zero] at hlen hlt hbits
    refine ⟨by rw [fw_offsets, List.length_map, hlen], hlt, ?_⟩
    intro j
    rw [bit_at_setbit h j, hbits j, bit_at_replicate_zero]
    simp [fw_offsets]

/-- Counting the set bits of a bitmap whose set bits are `m` and the members of
`offs`, all of them different from `m`. -/
theorem popcount_eq (bm : List Nat) (m : Nat) (offs : List Nat)
    (hm : ∀ x ∈ offs, x < m)
    (hbits : ∀ j, bit_at bm j = (decide (j = m) || decide (j ∈ offs))) :
    popcount bm = offs.dedup.length + 1 := by
  unfold popcount
  have hnd : ((List.range (8 * bm.length)).filter (bit_at bm)).Nodup :=
    (List.nodup_range _).filter _
  rw [← List.toFinset_card_of_nodup hnd]
  have hset : ((List.range (8 * bm.length)).filter (bit_at bm)).toFinset =
      insert m offs.toFinset := by
    ext j
    simp only [List.mem_toFinset, List.mem_filter, List.mem_range, Finset.mem_insert]
    constructor
    · rintro ⟨-, hj⟩
      rw [hbits j] at hj
      simpa using hj
    · intro hj
      have hb : bit_at bm j = true := by
        rw [hbits j]
        simpa using hj
      exact ⟨bit_at_lt hb, hb⟩
  have hnot : m ∉ offs.toFinset := by
    intro hmem
    have := hm m (List.mem_toFinset.1 hmem)
    omega
  rw [hset, Finset.card_insert_of_not_mem hnot, List.card_toFinset]

/-- The arguments with which a call invoked the table constructor. -/
theorem init_event_inv {env : Env} {orw : obj_rw_in} {bm : List Nat} {m n : Nat} {ok : Bool}
    (h : Event.tgt_oiod_init bm m n ok ∈ (obj_ec_rw_req_split env orw).trace) :
    build_bitmap env orw = .ok bm ∧ m = tgt_max_idx orw ∧ n = u32 (tgt_nr orw + 1) := by
  unfold obj_ec_rw_req_split at h
  cases hp : pre_asserts env orw with
  | error e => simp [hp] at h
  | ok oiods =>
    cases ha : env.D_ALLOC (alloc_size env orw) with
    | false => simp [hp, ha] at h
    | true =>
      cases hb : build_bitmap env orw with
      | error e => simp [hp, ha, hb] at h
      | ok bm0 =>
        cases hi : env.obj_ec_tgt_oiod_init oiods orw.orw_nr bm0 (tgt_max_idx orw)
            (u32 (tgt_nr orw + 1)) with
        | none =>
          simp only [hp, ha, hb, hi] at h
          split at h
          · simp at h
          · split at h
            · simp at h
              obtain ⟨rfl, rfl, rfl, -⟩ := h
              exact ⟨rfl, rfl, rfl⟩
            · simp at h
              obtain ⟨rfl, rfl, rfl, -⟩ := h
              exact ⟨rfl, rfl, rfl⟩
        | some tgt_oiods =>
          cases hasm : assemble env orw tgt_oiods with
          | error e =>
            simp [hp, ha, hb, hi, hasm] at h
            obtain ⟨rfl, rfl, rfl, -⟩ := h
            exact ⟨rfl, rfl, rfl⟩
          | ok r =>
            simp [hp, ha, hb, hi, hasm] at h
            obtain ⟨rfl, rfl, rfl, -⟩ := h
            exact ⟨rfl, rfl, rfl⟩

/-- C10 fails as stated: with the forward target of shard 0 listed twice (leader
shard 2) the call is accepted and returns 0, the constructor is given the target
count 3, but the bitmap has only the two bits 0 and 2 set. -/
theorem bitmap_popcount_counterexample :
    (obj_ec_rw_req_split env_sv orw_dup).outcome = .returned 0 ∧
    Event.tgt_oiod_init [5, 0, 0, 0, 0, 0, 0, 0, 0, 0, 0, 0, 0, 0, 0, 0] 2 3 true ∈
      (obj_ec_rw_req_split env_sv orw_dup).trace ∧
    orw_dup.orw_shard_tgts.ca_count + 1 = 3 ∧
    popcount [5, 0, 0, 0, 0, 0, 0, 0, 0, 0, 0, 0, 0, 0, 0, 0] = 2 ∧
    popcount [5, 0, 0, 0, 0, 0, 0, 0, 0, 0, 0, 0, 0, 0, 0, 0] ≠
      orw_dup.orw_shard_tgts.ca_count + 1 := by
  refine ⟨rfl, ?_, rfl, rfl, ?_⟩
  · decide
  · decide

/-- C10 as amended. Whenever a call reaches the Target-OIOD table constructor,
the bitmap it passes is the one built from the forward-target list and the
leader's offset, the target count it passes is the forward-target count plus one
(as a `uint32_t`), the leader's bit is set, and the number of set bits is the
number of distinct forward-target offsets plus one: at most the forward-target
count plus one, and equal to it exactly when the forward targets' offsets are
pairwise distinct. -/
theorem bitmap_popcount_distinct
    (env : Env) (orw : obj_rw_in) (bm : List Nat) (m n : Nat) (ok : Bool)
    (h : Event.tgt_oiod_init bm m n ok ∈ (obj_ec_rw_req_split env orw).trace) :
    build_bitmap env orw = .ok bm ∧ m = tgt_max_idx orw ∧ n = u32 (tgt_nr orw + 1) ∧
    bit_at bm (tgt_max_idx orw) = true ∧
    popcount bm = (fw_offsets orw).dedup.length + 1 ∧
    popcount bm ≤ tgt_nr orw + 1 ∧
    (popcount bm = tgt_nr orw + 1 ↔ (fw_offsets orw).Nodup) := by
  obtain ⟨hbm, hm, hn⟩ := init_event_inv h
  obtain ⟨hlen, hlt, hbits⟩ := build_bitmap_bits hbm
  have hpop := popcount_eq bm (tgt_max_idx orw) (fw_offsets orw) hlt hbits
  have hsub : (fw_offsets orw).dedup.Sublist (fw_offsets orw) := List.dedup_sublist _
  have hle : (fw_offsets orw).dedup.length ≤ (fw_offsets orw).length := hsub.length_le
  refine ⟨hbm, hm, hn, ?_, hpop, by omega, ?_⟩
  · rw [hbits]
    simp
  · constructor
    · intro heq
      have hl : (fw_offsets orw).dedup.length = (fw_offsets orw).length := by omega
      exact List.dedup_eq_self.1 (hsub.eq_of_length hl)
    · intro hnd
      rw [hpop, List.dedup_eq_self.2 hnd, hlen]

/-- C10 as amended, on the single-value request with forward targets 0 and 1 and
leader 2: three bits for two distinct forward targets. -/
theorem bitmap_popcount_distinct_witness :
    Event.tgt_oiod_init [7, 0, 0, 0, 0, 0, 0, 0, 0, 0, 0, 0, 0, 0, 0, 0] 2 3 true ∈
      (obj_ec_rw_req_split env_sv (orw_sv 3)).trace ∧
    build_bitmap env_sv (orw_sv 3) = .ok [7, 0, 0, 0, 0, 0, 0, 0, 0, 0, 0, 0, 0, 0, 0, 0] ∧
    2 = tgt_max_idx (orw_sv 3) ∧ 3 = u32 (tgt_nr (orw_sv 3) + 1) ∧
    bit_at [7, 0, 0, 0, 0, 0, 0, 0, 0, 0, 0, 0, 0, 0, 0, 0] (tgt_max_idx (orw_sv 3)) = true ∧
    popcount [7, 0, 0, 0, 0, 0, 0, 0, 0, 0, 0, 0, 0, 0, 0, 0] =
      (fw_offsets (orw_sv 3)).dedup.length + 1 ∧
    popcount [7, 0, 0, 0, 0, 0, 0, 0, 0, 0, 0, 0, 0, 0, 0, 0] ≤ tgt_nr (orw_sv 3) + 1 ∧
    (popcount [7, 0, 0, 0, 0, 0, 0, 0, 0, 0, 0, 0, 0, 0, 0, 0] = tgt_nr (orw_sv 3) + 1 ↔
      (fw_offsets (orw_sv 3)).Nodup) :=
  ⟨by decide,
   bitmap_popcount_distinct env_sv (orw_sv 3) [7, 0, 0, 0, 0, 0, 0, 0, 0, 0, 0, 0, 0, 0, 0, 0]
     2 3 true (by decide)⟩

/-! ## One forward target, determinism, layout, header -/

/-- A call whose allocations succeed and which no assertion stops went through
every stage. -/
theorem not_aborted_inv {env : Env} {orw : obj_rw_in}
    (hna : ∀ f, (obj_ec_rw_req_split env orw).outcome ≠ .aborted f)
    (halloc : env.D_ALLOC (alloc_size env orw) = true) :
    ∃ oiods bm, pre_asserts env orw = .ok oiods ∧ build_bitmap env orw = .ok bm ∧
      ∀ tgt_oiods, env.obj_ec_tgt_oiod_init oiods orw.orw_nr bm (tgt_max_idx orw)
          (u32 (tgt_nr orw + 1)) = some tgt_oiods →
        ∃ req, assemble env orw tgt_oiods = .ok req := by
  cases hp : pre_asserts env orw with
  | error f =>
    exfalso
    apply hna f
    simp [obj_ec_rw_req_split, hp]
  | ok oiods =>
    cases hb : build_bitmap env orw with
    | error f =>
      exfalso
      apply hna f
      simp [obj_ec_rw_req_split, hp, halloc, hb]
    | ok bm =>
      refine ⟨oiods, bm, rfl, rfl, ?_⟩
      intro tgt_oiods hinit
      cases hasm : assemble env orw tgt_oiods with
      | error f =>
        exfalso
        apply hna f
        simp [obj_ec_rw_req_split, hp, halloc, hb, hinit, hasm]
      | ok req => exact ⟨req, rfl⟩

/-- C11 fails as stated: the four-extent request has exactly one forward target
plus the leader, the call succeeds, and it produces one split request, not
two. -/
theorem one_fw_tgt_counterexample :
    tgt_nr (orw4 false) = 1 ∧
    (obj_ec_rw_req_split env4 (orw4 false)).outcome = .returned 0 ∧
    (produced_split_reqs env4 (orw4 false)).length = 1 ∧
    (produced_split_reqs env4 (orw4 false)).length ≠ 2 := by
  refine ⟨rfl, rfl, rfl, ?_⟩
  decide

/-- C11 as amended. For a request with exactly one forward target, when both
allocations succeed and no assertion stops the call, the call returns 0 and
produces exactly one split request, the leader's: it was split for the table
entry whose target index is the leader's offset.  The constructor was given a bitmap with exactly two set bits
(the forward target's and the leader's) and the target count 2. -/
theorem one_fw_tgt_split
    (env : Env) (orw : obj_rw_in)
    (hone : tgt_nr orw = 1)
    (halloc : env.D_ALLOC (alloc_size env orw) = true)
    (hinit : ∀ oiods bm,
      (env.obj_ec_tgt_oiod_init oiods orw.orw_nr bm (tgt_max_idx orw) 2).isSome = true)
    (hna : ∀ f, (obj_ec_rw_req_split env orw).outcome ≠ .aborted f) :
    (obj_ec_rw_req_split env orw).outcome = .returned 0 ∧
    ∃ req bm tgt_oiod,
      produced_split_reqs env orw = [req] ∧
      (obj_ec_rw_req_split env orw).trace =
        [.alloc (alloc_size env orw) true, .tgt_oiod_init bm (tgt_max_idx orw) 2 true] ∧
      popcount bm = 2 ∧
      bit_at bm (tgt_max_idx orw) = true ∧
      (∀ x ∈ fw_offsets orw, bit_at bm x = true ∧ x < tgt_max_idx orw) ∧
      split_tgt_oiod env orw req = some tgt_oiod ∧
      tgt_oiod.oto_tgt_idx = tgt_max_idx orw := by
  obtain ⟨oiods, bm, hp, hb, hasm⟩ := not_aborted_inv hna halloc
  have h2 : u32 (tgt_nr orw + 1) = 2 := by rw [hone]; rfl
  obtain ⟨tbl, htbl⟩ := Option.isSome_iff_exists.1 (hinit oiods bm)
  rw [← h2] at htbl
  obtain ⟨req, hreq⟩ := hasm tbl htbl
  have hrun := run_of_ok hp halloc hb htbl hreq
  obtain ⟨t, rs, hg, hidx, -, hreqeq⟩ := assemble_inv hreq
  obtain ⟨hlen, hlt, hbits⟩ := build_bitmap_bits hb
  have hpop := popcount_eq bm (tgt_max_idx orw) (fw_offsets orw) hlt hbits
  have hnd : (fw_offsets orw).Nodup := by
    rw [hone] at hlen
    match hfo : fw_offsets orw, hlen with
    | [x], _ => simp
  rw [List.dedup_eq_self.2 hnd, hlen, hone] at hpop
  rw [hrun]
  refine ⟨rfl, req, bm, t, ?_, ?_, hpop, ?_, ?_, ?_, hidx⟩
  · simp [produced_split_reqs, hrun]
  · simp [h2]
  · rw [hbits]; simp
  · intro x hx
    refine ⟨?_, hlt x hx⟩
    rw [hbits]
    simp [hx]
  · subst hreqeq
    exact hg

/-- C11 as amended, on the four-extent scenario (forward target 0, leader 1). -/
theorem one_fw_tgt_split_witness :
    (obj_ec_rw_req_split env4 (orw4 false)).outcome = .returned 0 ∧
    ∃ req bm tgt_oiod,
      produced_split_reqs env4 (orw4 false) = [req] ∧
      (obj_ec_rw_req_split env4 (orw4 false)).trace =
        [.alloc (alloc_size env4 (orw4 false)) true,
         .tgt_oiod_init bm (tgt_max_idx (orw4 false)) 2 true] ∧
      popcount bm = 2 ∧
      bit_at bm (tgt_max_idx (orw4 false)) = true ∧
      (∀ x ∈ fw_offsets (orw4 false), bit_at bm x = true ∧ x < tgt_max_idx (orw4 false)) ∧
      split_tgt_oiod env4 (orw4 false) req = some tgt_oiod ∧
      tgt_oiod.oto_tgt_idx = tgt_max_idx (orw4 false) :=
  one_fw_tgt_split env4 (orw4 false) rfl rfl (fun _ _ => rfl)
    (by intro f h; exact Outcome.noConfusion h)

/-- C12. Determinism: two runs on the same request, in environments that agree
on the two header constants the split reads, in which the allocation succeeds,
and whose table constructor and lookup return equal results for this call, end
the same way and store equal split requests: the same start shard, trimmed IODs
(counts and extent pointers), trimmed checksum entries, derived single-value
segments, offsets and table.  Nothing else of the environment (allocator, sizes,
error code) and no earlier call enters the result. -/
theorem split_is_deterministic
    (env1 env2 : Env) (orw : obj_rw_in)
    (hlen : env1.OBJ_TGT_BITMAP_LEN = env2.OBJ_TGT_BITMAP_LEN)
    (hflag : env1.OBJ_SIOD_SINGV = env2.OBJ_SIOD_SINGV)
    (ha1 : env1.D_ALLOC (alloc_size env1 orw) = true)
    (ha2 : env2.D_ALLOC (alloc_size env2 orw) = true)
    (hinit : ∀ oiods bm tgt_oiods,
      env1.obj_ec_tgt_oiod_init oiods orw.orw_nr bm (tgt_max_idx orw)
          (u32 (tgt_nr orw + 1)) = some tgt_oiods ↔
        env2.obj_ec_tgt_oiod_init oiods orw.orw_nr bm (tgt_max_idx orw)
          (u32 (tgt_nr orw + 1)) = some tgt_oiods)
    (hget : ∀ tgt_oiods,
      env1.obj_ec_tgt_oiod_get tgt_oiods (u32 (tgt_nr orw + 1)) (tgt_max_idx orw) =
        env2.obj_ec_tgt_oiod_get tgt_oiods (u32 (tgt_nr orw + 1)) (tgt_max_idx orw)) :
    (obj_ec_rw_req_split env1 orw).split_req = (obj_ec_rw_req_split env2 orw).split_req ∧
    ((obj_ec_rw_req_split env1 orw).outcome = .returned 0 ∧
        (obj_ec_rw_req_split env1 orw).split_req.isSome = true ↔
      (obj_ec_rw_req_split env2 orw).outcome = .returned 0 ∧
        (obj_ec_rw_req_split env2 orw).split_req.isSome = true) ∧
    (∀ f, (obj_ec_rw_req_split env1 orw).outcome = .aborted f ↔
      (obj_ec_rw_req_split env2 orw).outcome = .aborted f) := by
  have hpre : pre_asserts env1 orw = pre_asserts env2 orw := by
    unfold pre_asserts
    rw [hflag]
  have hbm : build_bitmap env1 orw = build_bitmap env2 orw := by
    unfold build_bitmap
    rw [hlen]
  have hbody : ∀ t, split_iod env1 orw.orw_iod_array.oia_iods
      orw.orw_iod_array.oia_iod_csums t (tgt_max_idx orw) =
      split_iod env2 orw.orw_iod_array.oia_iods
        orw.orw_iod_array.oia_iod_csums t (tgt_max_idx orw) := by
    intro t
    funext i
    unfold split_iod
    rw [hflag]
  have hasm : ∀ tbl, assemble env1 orw tbl = assemble env2 orw tbl := by
    intro tbl
    unfold assemble
    rw [hget tbl]
    cases env2.obj_ec_tgt_oiod_get tbl (u32 (tgt_nr orw + 1)) (tgt_max_idx orw) with
    | none => rfl
    | some t => simp only [hbody t]
  cases hp2 : pre_asserts env2 orw with
  | error f =>
    have hp1 : pre_asserts env1 orw = .error f := by rw [hpre, hp2]
    simp [obj_ec_rw_req_split, hp1, hp2]
  | ok oiods =>
    have hp1 : pre_asserts env1 orw = .ok oiods := by rw [hpre, hp2]
    cases hb2 : build_bitmap env2 orw with
    | error f =>
      have hb1 : build_bitmap env1 orw = .error f := by rw [hbm, hb2]
      simp [obj_ec_rw_req_split, hp1, hp2, ha1, ha2, hb1, hb2]
    | ok bm =>
      have hb1 : build_bitmap env1 orw = .ok bm := by rw [hbm, hb2]
      cases h2 : env2.obj_ec_tgt_oiod_init oiods orw.orw_nr bm (tgt_max_idx orw)
          (u32 (tgt_nr orw + 1)) with
      | none =>
        have h1 : env1.obj_ec_tgt_oiod_init oiods orw.orw_nr bm (tgt_max_idx orw)
            (u32 (tgt_nr orw + 1)) = none := by
          cases h1 : env1.obj_ec_tgt_oiod_init oiods orw.orw_nr bm (tgt_max_idx orw)
              (u32 (tgt_nr orw + 1)) with
          | none => rfl
          | some t =>
            have := (hinit oiods bm t).1 h1
            rw [h2] at this
            exact Option.noConfusion this
        have e1 : (obj_ec_rw_req_split env1 orw).split_req = none ∧
            ∃ rc, (obj_ec_rw_req_split env1 orw).outcome = .returned rc := by
          unfold obj_ec_rw_req_split
          simp only [hp1, ha1, hb1, h1]
          split
          · rename_i hc; simp at hc
          · split <;> exact ⟨rfl, _, rfl⟩
        have e2 : (obj_ec_rw_req_split env2 orw).split_req = none ∧
            ∃ rc, (obj_ec_rw_req_split env2 orw).outcome = .returned rc := by
          unfold obj_ec_rw_req_split
          simp only [hp2, ha2, hb2, h2]
          split
          · rename_i hc; simp at hc
          · split <;> exact ⟨rfl, _, rfl⟩
        obtain ⟨s1, rc1, o1⟩ := e1
        obtain ⟨s2, rc2, o2⟩ := e2
        rw [s1, s2, o1, o2]
        simp
      | some tbl =>
        have h1 := (hinit oiods bm tbl).2 h2
        cases hq2 : assemble env2 orw tbl with
        | error f =>
          have hq1 : assemble env1 orw tbl = .error f := by rw [hasm, hq2]
          simp [obj_ec_rw_req_split, hp1, hp2, ha1, ha2, hb1, hb2, h1, h2, hq1, hq2]
        | ok req =>
          have hq1 : assemble env1 orw tbl = .ok req := by rw [hasm, hq2]
          rw [run_of_ok hp1 ha1 hb1 h1 hq1, run_of_ok hp2 ha2 hb2 h2 hq2]
          simp

/-- C12 on the four-extent scenario: an environment with another allocator
result for other sizes, other structure sizes and another error code gives the
same split request. -/
theorem split_is_deterministic_witness :
    (obj_ec_rw_req_split env4 (orw4 true)).split_req =
      (obj_ec_rw_req_split
        { env4 with DER_NOMEM := 12, sizeof_daos_iod_t := 64,
                    D_ALLOC := fun n => decide (n < 4096) } (orw4 true)).split_req ∧
    ((obj_ec_rw_req_split env4 (orw4 true)).outcome = .returned 0 ∧
        (obj_ec_rw_req_split env4 (orw4 true)).split_req.isSome = true ↔
      (obj_ec_rw_req_split
        { env4 with DER_NOMEM := 12, sizeof_daos_iod_t := 64,
                    D_ALLOC := fun n => decide (n < 4096) } (orw4 true)).outcome
          = .returned 0 ∧
        (obj_ec_rw_req_split
          { env4 with DER_NOMEM := 12, sizeof_daos_iod_t := 64,
                      D_ALLOC := fun n => decide (n < 4096) } (orw4 true)).split_req.isSome
          = true) ∧
    (∀ f, (obj_ec_rw_req_split env4 (orw4 true)).outcome = .aborted f ↔
      (obj_ec_rw_req_split
        { env4 with DER_NOMEM := 12, sizeof_daos_iod_t := 64,
                    D_ALLOC := fun n => decide (n < 4096) } (orw4 true)).outcome
        = .aborted f) :=
  split_is_deterministic env4
    { env4 with DER_NOMEM := 12, sizeof_daos_iod_t := 64,
                D_ALLOC := fun n => decide (n < 4096) } (orw4 true)
    rfl rfl rfl rfl (fun _ _ _ => Iff.rfl) (fun _ => rfl)

/-- Rounding up to a multiple of 8, away from the 64-bit wrap. -/
theorem roundup8 (x : Nat) (hx : x < 2 ^ 62) :
    roundup x 8 = (x + 7) / 8 * 8 ∧ roundup x 8 % 8 = 0 ∧ x ≤ roundup x 8 ∧
      roundup x 8 < x + 8 := by
  have h : roundup x 8 = (x + 7) / 8 * 8 := by
    unfold roundup u64
    have h1 : (x + (8 - 1)) % 2 ^ 64 = x + 7 := by omega
    rw [h1]
    omega
  rw [h]
  omega

/-- C13. Buffer layout: with `N = orw_nr` IODs (a `uint32_t`) and structure sizes
below `2 ^ 29`, the size handed to `D_ALLOC` is
`roundup8(header) + roundup8(N * iod) + roundup8(N * csum entry) +
roundup8(N * csum info)`, the last two terms counted only when the request
carries checksums.  The trimmed-IOD array starts at a multiple of 8 behind the
header and has room for `N` entries; with checksums, the trimmed-checksum array
and the single-value segment array start at multiples of 8, each behind the end
of the region before it, each with room for `N` entries, and the last one ends
inside the allocation. -/
theorem split_buffer_layout
    (env : Env) (orw : obj_rw_in)
    (hN : orw.orw_nr < 2 ^ 32)
    (h0 : env.sizeof_obj_ec_split_req < 2 ^ 29)
    (h1 : env.sizeof_daos_iod_t < 2 ^ 29)
    (h2 : env.sizeof_dcs_iod_csums < 2 ^ 29)
    (h3 : env.sizeof_dcs_csum_info < 2 ^ 29) :
    alloc_size env orw =
      (env.sizeof_obj_ec_split_req + 7) / 8 * 8 +
      (env.sizeof_daos_iod_t * orw.orw_nr + 7) / 8 * 8 +
      (if orw.orw_iod_array.oia_iod_csums.isSome then
        (env.sizeof_dcs_iod_csums * orw.orw_nr + 7) / 8 * 8 +
        (env.sizeof_dcs_csum_info * orw.orw_nr + 7) / 8 * 8
       else 0) ∧
    osr_iods_off env % 8 = 0 ∧
    env.sizeof_obj_ec_split_req ≤ osr_iods_off env ∧
    osr_iods_off env + env.sizeof_daos_iod_t * orw.orw_nr ≤ osr_iod_csums_off env orw ∧
    osr_iod_csums_off env orw ≤ alloc_size env orw ∧
    (orw.orw_iod_array.oia_iod_csums.isSome = true →
      osr_iod_csums_off env orw % 8 = 0 ∧
      osr_iod_csums_off env orw + env.sizeof_dcs_iod_csums * orw.orw_nr ≤
        osr_singv_cis_off env orw ∧
      osr_singv_cis_off env orw % 8 = 0 ∧
      osr_singv_cis_off env orw + env.sizeof_dcs_csum_info * orw.orw_nr ≤
        alloc_size env orw) := by
  have hp : ∀ a : Nat, a < 2 ^ 29 → a * orw.orw_nr < 2 ^ 61 := by
    intro a ha
    calc a * orw.orw_nr ≤ a * 2 ^ 32 := Nat.mul_le_mul_left _ (Nat.le_of_lt hN)
      _ < 2 ^ 29 * 2 ^ 32 := Nat.mul_lt_mul_of_pos_right ha (by norm_num)
      _ = 2 ^ 61 := by norm_num
  have hu : ∀ a : Nat, a < 2 ^ 29 → u64 (a * orw.orw_nr) = a * orw.orw_nr := by
    intro a ha
    have := hp a ha
    unfold u64
    omega
  have p1 := hp _ h1
  have p2 := hp _ h2
  have p3 := hp _ h3
  obtain ⟨r0, r0m, r0l, r0u⟩ := roundup8 env.sizeof_obj_ec_split_req (by omega)
  obtain ⟨r1, r1m, r1l, r1u⟩ := roundup8 (env.sizeof_daos_iod_t * orw.orw_nr) (by omega)
  obtain ⟨r2, r2m, r2l, r2u⟩ := roundup8 (env.sizeof_dcs_iod_csums * orw.orw_nr) (by omega)
  obtain ⟨r3, r3m, r3l, r3u⟩ := roundup8 (env.sizeof_dcs_csum_info * orw.orw_nr) (by omega)
  have e0 : req_size env = roundup env.sizeof_obj_ec_split_req 8 := rfl
  have e1 : iods_size env orw = roundup (env.sizeof_daos_iod_t * orw.orw_nr) 8 := by
    unfold iods_size
    rw [hu _ h1]
  cases hcs : orw.orw_iod_array.oia_iod_csums.isSome with
  | false =>
    have e2 : csums_size env orw = 0 := by simp [csums_size, hcs]
    have e3 : singv_ci_size env orw = 0 := by simp [singv_ci_size, hcs]
    simp only [alloc_size, osr_iods_off, osr_iod_csums_off, osr_singv_cis_off, e0, e1, e2, e3,
      u64]
    refine ⟨?_, ?_, ?_, ?_, ?_, ?_⟩
    · simp only [Bool.false_eq_true, if_false]
      omega
    all_goals first
      | omega
      | (intro hc; simp at hc)
  | true =>
    have e2 : csums_size env orw = roundup (env.sizeof_dcs_iod_csums * orw.orw_nr) 8 := by
      simp only [csums_size, hcs, if_true]
      rw [hu _ h2]
    have e3 : singv_ci_size env orw = roundup (env.sizeof_dcs_csum_info * orw.orw_nr) 8 := by
      simp only [singv_ci_size, hcs, if_true]
      rw [hu _ h3]
    simp only [alloc_size, osr_iods_off, osr_iod_csums_off, osr_singv_cis_off, e0, e1, e2, e3,
      u64]
    refine ⟨?_, ?_, ?_, ?_, ?_, ?_⟩
    · simp only [if_true]
      omega
    all_goals omega

/-- C13 on the four-extent scenario with checksums: header 48, one IOD of 56
bytes, one checksum entry of 48 and one checksum info of 24 bytes give a block of
176 bytes with the arrays at offsets 48, 104 and 152. -/
theorem split_buffer_layout_witness :
    alloc_size env4 (orw4 true) = 176 ∧ osr_iods_off env4 = 48 ∧
    osr_iod_csums_off env4 (orw4 true) = 104 ∧ osr_singv_cis_off env4 (orw4 true) = 152 ∧
    (alloc_size env4 (orw4 true) =
      (env4.sizeof_obj_ec_split_req + 7) / 8 * 8 +
      (env4.sizeof_daos_iod_t * (orw4 true).orw_nr + 7) / 8 * 8 +
      (if (orw4 true).orw_iod_array.oia_iod_csums.isSome then
        (env4.sizeof_dcs_iod_csums * (orw4 true).orw_nr + 7) / 8 * 8 +
        (env4.sizeof_dcs_csum_info * (orw4 true).orw_nr + 7) / 8 * 8
       else 0) ∧
    osr_iods_off env4 % 8 = 0 ∧
    env4.sizeof_obj_ec_split_req ≤ osr_iods_off env4 ∧
    osr_iods_off env4 + env4.sizeof_daos_iod_t * (orw4 true).orw_nr ≤
      osr_iod_csums_off env4 (orw4 true) ∧
    osr_iod_csums_off env4 (orw4 true) ≤ alloc_size env4 (orw4 true) ∧
    ((orw4 true).orw_iod_array.oia_iod_csums.isSome = true →
      osr_iod_csums_off env4 (orw4 true) % 8 = 0 ∧
      osr_iod_csums_off env4 (orw4 true) + env4.sizeof_dcs_iod_csums * (orw4 true).orw_nr ≤
        osr_singv_cis_off env4 (orw4 true) ∧
      osr_singv_cis_off env4 (orw4 true) % 8 = 0 ∧
      osr_singv_cis_off env4 (orw4 true) + env4.sizeof_dcs_csum_info * (orw4 true).orw_nr ≤
        alloc_size env4 (orw4 true))) :=
  ⟨rfl, rfl, rfl, rfl,
    split_buffer_layout env4 (orw4 true) (by decide) (by decide) (by decide) (by decide)
      (by decide)⟩

/-- The trimmed IOD of an iteration does not depend on the checksums. -/
theorem split_iod_fst {env : Env} {iods : List daos_iod_t}
    {iod_csums : Option (List dcs_iod_csums)} {t : obj_tgt_oiod} {m i : Nat}
    {b : daos_iod_t × Option dcs_iod_csums × dcs_csum_info}
    (h : split_iod env iods iod_csums t m i = .ok b) :
    split_iod env iods none t m i = .ok (b.1, none, dcs_csum_info.zero) := by
  unfold split_iod at h ⊢
  cases h1 : rd iods i with
  | error e => simp [h1] at h
  | ok iod =>
    cases h2 : rd t.oto_oiods i with
    | error e =>
      simp only [h1, h2] at h
      split at h <;> simp at h
    | ok oiod =>
      simp only [h1, h2] at h ⊢
      split at h
      · cases h
      · by_cases hflag : oiod.oiod_flags &&& env.OBJ_SIOD_SINGV ≠ 0
        · rw [if_pos hflag] at h ⊢
          cases hty : D_ASSERT (decide (iod.iod_type = .DAOS_IOD_SINGLE)) with
          | error e => simp [hty] at h
          | ok u =>
            simp only [hty] at h ⊢
            repeat' (split at h)
            all_goals first
              | (cases h; done)
              | (have hb := Except.ok.inj h; subst hb; rfl)
        · rw [if_neg hflag] at h ⊢
          cases hs : rd oiod.oiod_siods 0 with
          | error e => simp [hs] at h
          | ok siod =>
            simp only [hs] at h ⊢
            repeat' (split at h)
            all_goals first
              | (cases h; done)
              | (have hb := Except.ok.inj h; subst hb; rfl)

/-- The trimmed checksum entry of a single-value IOD is the original entry,
possibly redirected to slot `i` of `osr_singv_cis`. -/
theorem split_singv_csum_entry {m i : Nat} {c : dcs_iod_csums}
    {r : dcs_iod_csums × dcs_csum_info} (h : split_singv_csum m i c = .ok r) :
    r.1 = c ∨ r.1 = { c with ic_data := .singv i } := by
  cases hci : c.ic_data.rd0 with
  | error e =>
    unfold split_singv_csum at h
    split at h
    · simp at h
    · simp [hci] at h
  | ok ci =>
    by_cases hnr : ci.cs_nr > 1
    · exact Or.inr (split_singv_csum_many h hci hnr).2.2.1
    · exact Or.inl (split_singv_csum_one h hci (by omega)).2.1

/-- The ranged branch read the first SIOD of the entry. -/
theorem split_iod_ranged_siod {env : Env} {iods : List daos_iod_t}
    {iod_csums : Option (List dcs_iod_csums)} {t : obj_tgt_oiod} {m i : Nat}
    {b : daos_iod_t × Option dcs_iod_csums × dcs_csum_info}
    {iod : daos_iod_t} {oiod : obj_io_desc}
    (h : split_iod env iods iod_csums t m i = .ok b)
    (hiod : iods[i]? = some iod) (hoiod : t.oto_oiods[i]? = some oiod)
    (hflag : oiod.oiod_flags &&& env.OBJ_SIOD_SINGV = 0) :
    ∃ siod, oiod.oiod_siods[0]? = some siod := by
  cases hs : rd oiod.oiod_siods 0 with
  | ok siod => exact ⟨siod, (rd_ok_iff _ _ _).1 hs⟩
  | error e =>
    exfalso
    unfold split_iod at h
    have h1 : rd iods i = .ok iod := (rd_ok_iff _ _ _).2 hiod
    have h2 : rd t.oto_oiods i = .ok oiod := (rd_ok_iff _ _ _).2 hoiod
    have hn : ¬ (oiod.oiod_flags &&& env.OBJ_SIOD_SINGV ≠ 0) := by simp [hflag]
    simp only [h1, h2, hs] at h
    split at h
    · cases h
    · rw [if_neg hn] at h
      cases h

/-- With checksums, the trimmed checksum entry of an iteration is the original
entry of the same index with `ic_data` (and in the ranged case `ic_nr`)
replaced. -/
theorem split_iod_csum_entry {env : Env} {iods : List daos_iod_t}
    {cs : List dcs_iod_csums} {t : obj_tgt_oiod} {m i : Nat}
    {b : daos_iod_t × Option dcs_iod_csums × dcs_csum_info}
    (h : split_iod env iods (some cs) t m i = .ok b) :
    ∃ c sc, cs[i]? = some c ∧ b.2.1 = some sc ∧ sc.ic_akey = c.ic_akey ∧
      (sc = c ∨ sc = { c with ic_data := .singv i } ∨
        ∃ d n, sc = { c with ic_data := d, ic_nr := n }) := by
  obtain ⟨iod, oiod, hiod, hoiod, -⟩ := split_iod_fields h
  by_cases hflag : oiod.oiod_flags &&& env.OBJ_SIOD_SINGV = 0
  · obtain ⟨siod, hsiod⟩ := split_iod_ranged_siod h hiod hoiod hflag
    obtain ⟨-, -, hcr, -⟩ := split_iod_ranged h hiod hoiod hflag hsiod
    obtain ⟨c, d, hc, -, hb⟩ := hcr cs rfl
    exact ⟨c, _, hc, hb, rfl, Or.inr (Or.inr ⟨d, siod.siod_nr, rfl⟩)⟩
  · obtain ⟨-, -, -, -, hsv⟩ := split_iod_singv h hiod hoiod hflag
    obtain ⟨c, r, hc, hr, hb1, -⟩ := hsv cs rfl
    rcases split_singv_csum_entry hr with h1 | h1
    · exact ⟨c, r.1, hc, hb1, by rw [h1], Or.inl h1⟩
    · exact ⟨c, r.1, hc, hb1, by rw [h1], Or.inr (Or.inl h1)⟩

/-- Two requests that differ at most in their checksum arrays get the same
trimmed IODs. -/
theorem osr_iods_indep {env : Env} {o1 o2 : obj_rw_in} {req1 req2 : obj_ec_split_req}
    (h1 : (obj_ec_rw_req_split env o1).split_req = some req1)
    (h2 : (obj_ec_rw_req_split env o2).split_req = some req2)
    (e1 : o2.orw_oid = o1.orw_oid) (e2 : o2.orw_start_shard = o1.orw_start_shard)
    (e3 : o2.orw_nr = o1.orw_nr)
    (e4 : o2.orw_iod_array.oia_iods = o1.orw_iod_array.oia_iods)
    (e5 : o2.orw_iod_array.oia_oiods = o1.orw_iod_array.oia_oiods)
    (e6 : o2.orw_shard_tgts = o1.orw_shard_tgts) :
    req2.osr_iods = req1.osr_iods := by
  have hm : tgt_max_idx o2 = tgt_max_idx o1 := by unfold tgt_max_idx; rw [e1, e2]
  have hn : tgt_nr o2 = tgt_nr o1 := by unfold tgt_nr; rw [e6]
  have hpre : pre_asserts env o2 = pre_asserts env o1 := by
    unfold pre_asserts; rw [hn, e5]
  have hbm : build_bitmap env o2 = build_bitmap env o1 := by
    unfold build_bitmap; rw [hn, hm, e2, e6]
  obtain ⟨oiods, bm, tbl, hp, -, hb, hi, hasm⟩ := split_req_inv h1
  obtain ⟨oiods2, bm2, tbl2, hp2, -, hb2, hi2, hasm2⟩ := split_req_inv h2
  rw [hpre, hp] at hp2
  rw [hbm, hb] at hb2
  obtain rfl := Except.ok.inj hp2
  obtain rfl := Except.ok.inj hb2
  rw [hm, hn, e3, hi] at hi2
  obtain rfl := Option.some.inj hi2
  obtain ⟨ta, rsa, hga, -, hla, hra⟩ := assemble_inv hasm
  obtain ⟨tb, rsb, hgb, -, hlb, hrb⟩ := assemble_inv hasm2
  rw [hm, hn, hga] at hgb
  obtain rfl := Option.some.inj hgb
  rw [hm, e3, e4] at hlb
  obtain ⟨hlen1, hall1⟩ := for_loop_ok _ _ _ _ hla
  obtain ⟨hlen2, hall2⟩ := for_loop_ok _ _ _ _ hlb
  have hio1 : req1.osr_iods = rsa.map (fun r => r.1) := by rw [hra]
  have hio2 : req2.osr_iods = rsb.map (fun r => r.1) := by rw [hrb]
  rw [hio1, hio2]
  apply List.ext_getElem?
  intro i
  by_cases hi' : i < o1.orw_nr
  · obtain ⟨b1, hb1, hr1⟩ := hall1 i hi'
    obtain ⟨b2, hb2', hr2⟩ := hall2 i hi'
    have hf1 := split_iod_fst hb1
    have hf2 := split_iod_fst hb2'
    rw [hf1] at hf2
    have hfst : b1.1 = b2.1 := by
      have := Except.ok.inj hf2
      exact (Prod.mk.inj this).1
    simp [hr1, hr2, hfst]
  · have l1 : rsa.length ≤ i := by omega
    have l2 : rsb.length ≤ i := by omega
    simp [List.getElem?_eq_none, l1, l2]

/-- C14. Checksum presence: on a successful split of a request with `orw_nr`
IODs, if the request carries a checksum array the split request holds exactly
`orw_nr` trimmed checksum entries and `orw_nr` single-value slots, entry `i` being
original entry `i` with `ic_data` (and, in the ranged case, `ic_nr`) replaced; if
it carries none, the split request has neither array.  The trimmed IODs do not
depend on the checksums: any request that differs at most in its checksum array
and is split successfully gets the same trimmed IODs. -/
theorem csum_presence
    (env : Env) (orw : obj_rw_in) (req : obj_ec_split_req)
    (hrun : (obj_ec_rw_req_split env orw).split_req = some req) :
    (∀ cs, orw.orw_iod_array.oia_iod_csums = some cs →
      ∃ scs segs, req.osr_iod_csums = some scs ∧ scs.length = orw.orw_nr ∧
        req.osr_singv_cis = some segs ∧ segs.length = orw.orw_nr ∧
        ∀ i, i < orw.orw_nr →
          ∃ c sc, cs[i]? = some c ∧ scs[i]? = some sc ∧ sc.ic_akey = c.ic_akey ∧
            (sc = c ∨ sc = { c with ic_data := .singv i } ∨
              ∃ d n, sc = { c with ic_data := d, ic_nr := n })) ∧
    (orw.orw_iod_array.oia_iod_csums = none →
      req.osr_iod_csums = none ∧ req.osr_singv_cis = none) ∧
    (∀ orw2 req2,
      (obj_ec_rw_req_split env orw2).split_req = some req2 →
      orw2.orw_oid = orw.orw_oid → orw2.orw_start_shard = orw.orw_start_shard →
      orw2.orw_nr = orw.orw_nr →
      orw2.orw_iod_array.oia_iods = orw.orw_iod_array.oia_iods →
      orw2.orw_iod_array.oia_oiods = orw.orw_iod_array.oia_oiods →
      orw2.orw_shard_tgts = orw.orw_shard_tgts →
      req2.osr_iods = req.osr_iods) := by
  obtain ⟨t0, rs, ht0, hidx, hlen, hall, -, hiods, -, hcsums, hsegs⟩ := split_req_loop hrun
  refine ⟨?_, ?_, ?_⟩
  · intro cs hcs
    have hsome : ∀ r ∈ rs, (r.2.1).isSome = true := by
      intro r hr
      obtain ⟨j, hj, hjr⟩ := List.getElem_of_mem hr
      obtain ⟨c, hc1, hc2⟩ := hall j (by omega)
      have : rs[j]? = some rs[j] := List.getElem?_eq_getElem hj
      rw [this] at hc2
      obtain rfl := Option.some.inj hc2
      rw [hcs] at hc1
      rw [← hjr]
      exact split_iod_csum_some hc1
    obtain ⟨hfl, hfi⟩ := filterMap_all_some (fun r : daos_iod_t × Option dcs_iod_csums ×
      dcs_csum_info => r.2.1) rs hsome
    refine ⟨rs.filterMap (fun r => r.2.1), rs.map (fun r => r.2.2), by simp [hcsums, hcs],
      by rw [hfl, hlen], by simp [hsegs, hcs], by simp [hlen], ?_⟩
    intro i hi
    obtain ⟨b, hb, hrb⟩ := hall i hi
    rw [hcs] at hb
    obtain ⟨c, sc, hc, hsc, hak, hrel⟩ := split_iod_csum_entry hb
    refine ⟨c, sc, hc, ?_, hak, hrel⟩
    rw [hfi i, hrb]
    exact hsc
  · intro hn
    exact ⟨by simp [hcsums, hn], by simp [hsegs, hn]⟩
  · intro orw2 req2 hrun2 e1 e2 e3 e4 e5 e6
    exact osr_iods_indep hrun hrun2 e1 e2 e3 e4 e5 e6

/-- C14 on the four-extent scenario: with checksums the split request has one
entry and one slot, without it has neither array, and the trimmed IODs are the
same in both. -/
theorem csum_presence_witness :
    (∃ reqc scs segs, (obj_ec_rw_req_split env4 (orw4 true)).split_req = some reqc ∧
      reqc.osr_iod_csums = some scs ∧ scs.length = 1 ∧
      reqc.osr_singv_cis = some segs ∧ segs.length = 1 ∧
      reqc.osr_iods = req4.osr_iods) ∧
    req4.osr_iod_csums = none ∧ req4.osr_singv_cis = none :=
  ⟨by
    obtain ⟨scs, segs, h1, h2, h3, h4, -⟩ :=
      (csum_presence env4 (orw4 true) _ rfl).1 _ rfl
    exact ⟨_, scs, segs, rfl, h1, h2, h3, h4,
      (csum_presence env4 (orw4 false) req4 rfl).2.2 (orw4 true) _ rfl rfl rfl rfl rfl rfl
        rfl⟩,
   (csum_presence env4 (orw4 false) req4 rfl).2.1 rfl⟩

/-- C15. Split request header: on a successful split the request records the
request's start shard, refers to the table that `obj_ec_tgt_oiod_init` returned
in this call, and its offset table is the `oto_offs` of the entry that
`obj_ec_tgt_oiod_get` returned for the leader, an entry whose target index is
`id_shard - start_shard` (in 32-bit arithmetic; the plain difference when the
leader's shard is not below the start shard). -/
theorem split_req_header
    (env : Env) (orw : obj_rw_in) (req : obj_ec_split_req)
    (hrun : (obj_ec_rw_req_split env orw).split_req = some req) :
    req.osr_start_shard = orw.orw_start_shard ∧
    (∃ oiods bm, build_bitmap env orw = .ok bm ∧
      Event.tgt_oiod_init bm (tgt_max_idx orw) (u32 (tgt_nr orw + 1)) true ∈
        (obj_ec_rw_req_split env orw).trace ∧
      env.obj_ec_tgt_oiod_init oiods orw.orw_nr bm (tgt_max_idx orw)
        (u32 (tgt_nr orw + 1)) = some req.osr_tgt_oiods) ∧
    (∃ tgt_oiod,
      env.obj_ec_tgt_oiod_get req.osr_tgt_oiods (u32 (tgt_nr orw + 1)) (tgt_max_idx orw)
        = some tgt_oiod ∧
      req.osr_offs = tgt_oiod.oto_offs ∧
      tgt_oiod.oto_tgt_idx = u32_sub orw.orw_oid.id_shard orw.orw_start_shard ∧
      (orw.orw_start_shard ≤ orw.orw_oid.id_shard → orw.orw_oid.id_shard < 2 ^ 32 →
        tgt_oiod.oto_tgt_idx = orw.orw_oid.id_shard - orw.orw_start_shard)) := by
  obtain ⟨oiods, bm, tbl, hp, ha, hb, hi, hasm⟩ := split_req_inv hrun
  obtain ⟨t, rs, hg, hidx, -, hreq⟩ := assemble_inv hasm
  have hruneq := run_of_ok hp ha hb hi hasm
  subst hreq
  refine ⟨rfl, ⟨oiods, bm, hb, ?_, hi⟩, ⟨t, hg, rfl, hidx, ?_⟩⟩
  · rw [hruneq]
    simp
  · intro hle hlt
    rw [hidx]
    unfold tgt_max_idx u32_sub u32
    omega

/-- C15 on the four-extent scenario: start shard 0, the table `tbl4`, and the
offsets `[20]` of the entry with target index `1 - 0`. -/
theorem split_req_header_witness :
    req4.osr_start_shard = (orw4 false).orw_start_shard ∧
    (∃ oiods bm, build_bitmap env4 (orw4 false) = .ok bm ∧
      Event.tgt_oiod_init bm (tgt_max_idx (orw4 false)) (u32 (tgt_nr (orw4 false) + 1)) true ∈
        (obj_ec_rw_req_split env4 (orw4 false)).trace ∧
      env4.obj_ec_tgt_oiod_init oiods (orw4 false).orw_nr bm (tgt_max_idx (orw4 false))
        (u32 (tgt_nr (orw4 false) + 1)) = some req4.osr_tgt_oiods) ∧
    (∃ tgt_oiod,
      env4.obj_ec_tgt_oiod_get req4.osr_tgt_oiods (u32 (tgt_nr (orw4 false) + 1))
        (tgt_max_idx (orw4 false)) = some tgt_oiod ∧
      req4.osr_offs = tgt_oiod.oto_offs ∧
      tgt_oiod.oto_tgt_idx =
        u32_sub (orw4 false).orw_oid.id_shard (orw4 false).orw_start_shard ∧
      ((orw4 false).orw_start_shard ≤ (orw4 false).orw_oid.id_shard →
        (orw4 false).orw_oid.id_shard < 2 ^ 32 →
        tgt_oiod.oto_tgt_idx =
          (orw4 false).orw_oid.id_shard - (orw4 false).orw_start_shard)) :=
  split_req_header env4 (orw4 false) req4 rfl

/-- C16. The forward-target assertion in 32-bit unsigned arithmetic: when the
leader's shard index is not below the start shard, a forward target with shard
index `s` passes `D_ASSERT(tgt_idx < tgt_max_idx)` if and only if
`start ≤ s < leader`; a forward target below the start shard wraps to an offset of
at least `2 ^ 32 - start`, above every leader offset, and is rejected.  Hence in
every bitmap that was built, each forward target the loop visited lies in
`[start, leader)` and set a bit strictly below the leader's bit. -/
theorem fw_tgt_assert_iff
    (start leader : Nat) (hstart : start < 2 ^ 32) (hleader : leader < 2 ^ 32)
    (hle : start ≤ leader) :
    (∀ s, s < 2 ^ 32 →
      (D_ASSERT (decide (u32_sub s start < u32_sub leader start)) = .ok () ↔
        start ≤ s ∧ s < leader) ∧
      (s < start → u32_sub s start = s + 2 ^ 32 - start ∧
        u32_sub leader start < u32_sub s start ∧
        D_ASSERT (decide (u32_sub s start < u32_sub leader start)) = .error .assertion)) ∧
    (∀ env orw bm, orw.orw_start_shard = start → orw.orw_oid.id_shard = leader →
      build_bitmap env orw = .ok bm →
      ∀ t ∈ orw.orw_shard_tgts.ca_arrays.take (tgt_nr orw), t.st_shard < 2 ^ 32 →
        start ≤ t.st_shard ∧ t.st_shard < leader ∧
        u32_sub t.st_shard start = t.st_shard - start ∧
        t.st_shard - start < tgt_max_idx orw ∧
        bit_at bm (t.st_shard - start) = true ∧ bit_at bm (tgt_max_idx orw) = true) := by
  have hchk : ∀ s, s < 2 ^ 32 →
      (u32_sub s start < u32_sub leader start ↔ start ≤ s ∧ s < leader) := by
    intro s hs
    unfold u32_sub u32
    omega
  constructor
  · intro s hs
    refine ⟨?_, ?_⟩
    · rw [D_ASSERT_ok_iff, decide_eq_true_iff]
      exact hchk s hs
    · intro hlt
      have hn : ¬ (u32_sub s start < u32_sub leader start) := by
        rw [hchk s hs]; omega
      refine ⟨?_, ?_, ?_⟩
      · unfold u32_sub u32; omega
      · unfold u32_sub u32 at hn ⊢; omega
      · simp [D_ASSERT, hn]
  · intro env orw bm hs hl hbm t ht ht32
    obtain ⟨-, hlt, hbits⟩ := build_bitmap_bits hbm
    have hmem : u32_sub t.st_shard orw.orw_start_shard ∈ fw_offsets orw := by
      unfold fw_offsets
      exact List.mem_map_of_mem _ ht
    have hoff := hlt _ hmem
    have hmax : tgt_max_idx orw = u32_sub leader start := by
      unfold tgt_max_idx; rw [hs, hl]
    rw [hs] at hmem hoff
    rw [hmax] at hoff
    have hrange := (hchk t.st_shard ht32).1 hoff
    have heq : u32_sub t.st_shard start = t.st_shard - start := by
      unfold u32_sub u32; omega
    refine ⟨hrange.1, hrange.2, heq, ?_, ?_, ?_⟩
    · rw [hmax, ← heq]; exact hoff
    · rw [hbits, ← heq]
      simp [hmem]
    · rw [hbits]
      simp

/-- C16 with start shard 4 and leader shard 6: shard 5 passes, shard 3 wraps to
`2 ^ 32 - 1` and is rejected; in the four-extent scenario forward target 0 sets
bit 0, below the leader's bit 1. -/
theorem fw_tgt_assert_iff_witness :
    (D_ASSERT (decide (u32_sub 5 4 < u32_sub 6 4)) = .ok () ↔ 4 ≤ 5 ∧ 5 < 6) ∧
    u32_sub 3 4 = 4294967295 ∧
    D_ASSERT (decide (u32_sub 3 4 < u32_sub 6 4)) = .error .assertion ∧
    (0 ≤ 0 ∧ 0 < 1 ∧ u32_sub 0 0 = 0 - 0 ∧ 0 - 0 < tgt_max_idx (orw4 false) ∧
      bit_at [3, 0, 0, 0, 0, 0, 0, 0, 0, 0, 0, 0, 0, 0, 0, 0] (0 - 0) = true ∧
      bit_at [3, 0, 0, 0, 0, 0, 0, 0, 0, 0, 0, 0, 0, 0, 0, 0] (tgt_max_idx (orw4 false)) = true) :=
  ⟨((fw_tgt_assert_iff 4 6 (by decide) (by decide) (by decide)).1 5 (by decide)).1,
   (((fw_tgt_assert_iff 4 6 (by decide) (by decide) (by decide)).1 3 (by decide)).2
      (by decide)).1,
   (((fw_tgt_assert_iff 4 6 (by decide) (by decide) (by decide)).1 3 (by decide)).2
      (by decide)).2.2,
   (fw_tgt_assert_iff 0 1 (by decide) (by decide) (by decide)).2 env4 (orw4 false)
     [3, 0, 0, 0, 0, 0, 0, 0, 0, 0, 0, 0, 0, 0, 0, 0] rfl rfl rfl ⟨0⟩ (by decide) (by decide)⟩

/-- C17. In-bounds chunk selection: on a successful split, for a single-value
IOD whose checksum info `ci` has `cs_nr > 1` (so that the assertion
`cs_nr = tgt_max_idx + 1` held), and when the 32-bit product
`tgt_max_idx * cs_len` does not wrap, the derived segment in slot `i` is the last
of the `cs_nr` chunks: it starts at `cs_csum + (cs_nr - 1) * cs_len`, not before
the original data, has `cs_len` bytes, and ends exactly at
`cs_csum + cs_nr * cs_len`, the end of the original data. -/
theorem singv_chunk_in_bounds
    (env : Env) (orw : obj_rw_in) (req : obj_ec_split_req) (tgt_oiod : obj_tgt_oiod)
    (i : Nat) (oiod : obj_io_desc) (cs : List dcs_iod_csums) (c : dcs_iod_csums)
    (ci : dcs_csum_info)
    (hrun : (obj_ec_rw_req_split env orw).split_req = some req)
    (htgt : split_tgt_oiod env orw req = some tgt_oiod)
    (hi : i < orw.orw_nr)
    (hoiod : tgt_oiod.oto_oiods[i]? = some oiod)
    (hflag : oiod.oiod_flags &&& env.OBJ_SIOD_SINGV ≠ 0)
    (hcs : orw.orw_iod_array.oia_iod_csums = some cs)
    (hc : cs[i]? = some c)
    (hci : c.ic_data.rd0 = .ok ci)
    (hnr : ci.cs_nr > 1)
    (hprod : tgt_max_idx orw * ci.cs_len < 2 ^ 32) :
    ci.cs_nr = tgt_max_idx orw + 1 ∧
    ∃ segs seg, req.osr_singv_cis = some segs ∧ segs[i]? = some seg ∧
      seg.cs_csum = ci.cs_csum + (ci.cs_nr - 1) * ci.cs_len ∧
      seg.cs_buf_len = ci.cs_len ∧
      ci.cs_csum ≤ seg.cs_csum ∧
      seg.cs_csum + seg.cs_buf_len = ci.cs_csum + ci.cs_nr * ci.cs_len := by
  obtain ⟨b, hb, -, -, -, hcsum⟩ := split_req_at hrun htgt hi
  obtain ⟨scs, segs, -, -, -, h3, -, h4⟩ := hcsum cs hcs
  obtain ⟨iod, oiod2, hiod, hoiod2, -⟩ := split_iod_fields hb
  rw [hoiod] at hoiod2
  obtain rfl := Option.some.inj hoiod2
  obtain ⟨-, -, -, -, hsv⟩ := split_iod_singv hb hiod hoiod hflag
  obtain ⟨c2, r, hc2, hr, -, hb2⟩ := hsv cs hcs
  rw [hc] at hc2
  obtain rfl := Option.some.inj hc2
  obtain ⟨-, hcnt, -, hr2⟩ := split_singv_csum_many hr hci hnr
  have hm32 : tgt_max_idx orw < 2 ^ 32 := by
    unfold tgt_max_idx u32_sub
    exact Nat.mod_lt _ (by norm_num)
  have hcnt2 : ci.cs_nr = tgt_max_idx orw + 1 := by
    unfold u32 at hcnt
    omega
  have hu : u32 (tgt_max_idx orw * ci.cs_len) = tgt_max_idx orw * ci.cs_len :=
    Nat.mod_eq_of_lt hprod
  have hm : ci.cs_nr - 1 = tgt_max_idx orw := by omega
  refine ⟨hcnt2, segs, b.2.2, h3, h4, ?_, ?_, ?_, ?_⟩
  · rw [hb2, hr2, hm]
    simp [hu]
  · rw [hb2, hr2]
  · rw [hb2, hr2]
    simp
  · rw [hb2, hr2]
    simp only [hu]
    rw [hcnt2, Nat.add_mul]
    omega

/-- C17 on the single value striped over shards 0-2: three chunks of 4 bytes at
5000; the leader's segment is `[5008, 5012)`. -/
theorem singv_chunk_in_bounds_witness :
    ∃ req, (obj_ec_rw_req_split env_sv (orw_sv 3)).split_req = some req ∧
      (ci_sv 3).cs_nr = tgt_max_idx (orw_sv 3) + 1 ∧
      ∃ segs seg, req.osr_singv_cis = some segs ∧ segs[0]? = some seg ∧
        seg.cs_csum = 5000 + (3 - 1) * 4 ∧
        seg.cs_buf_len = 4 ∧
        5000 ≤ seg.cs_csum ∧
        seg.cs_csum + seg.cs_buf_len = 5000 + 3 * 4 :=
  ⟨_, rfl, singv_chunk_in_bounds env_sv (orw_sv 3) _ ⟨2, [0], oiods_sv⟩ 0 ⟨0, 2, []⟩
    [csum_sv 3] (csum_sv 3) (ci_sv 3) rfl rfl (by decide) rfl (by decide) rfl rfl rfl
    (by decide) (by decide)⟩

/-- C18. Release path: `obj_ec_split_req_fini` on a null request makes no call at
all; on a non-null request it calls `obj_ec_tgt_oiod_fini` on the table the
request refers to and then frees the request block, each exactly once.  After a
successful split followed by the release, the block that was allocated has been
freed exactly once and the table that was built has been handed to
`obj_ec_tgt_oiod_fini` exactly once. -/
theorem split_req_fini_releases :
    obj_ec_split_req_fini none = [] ∧
    (∀ r, obj_ec_split_req_fini (some r) =
        [.tgt_oiod_fini (some r.osr_tgt_oiods), .free_buf] ∧
      (obj_ec_split_req_fini (some r)).count .free_buf = 1 ∧
      (obj_ec_split_req_fini (some r)).count (.tgt_oiod_fini (some r.osr_tgt_oiods)) = 1 ∧
      ∀ e ∈ obj_ec_split_req_fini (some r),
        e = .tgt_oiod_fini (some r.osr_tgt_oiods) ∨ e = .free_buf) ∧
    (∀ env orw req, (obj_ec_rw_req_split env orw).split_req = some req →
      ((obj_ec_rw_req_split env orw).trace ++
        obj_ec_split_req_fini (obj_ec_rw_req_split env orw).split_req).count .free_buf = 1 ∧
      ((obj_ec_rw_req_split env orw).trace ++
        obj_ec_split_req_fini (obj_ec_rw_req_split env orw).split_req).count
          (.tgt_oiod_fini (some req.osr_tgt_oiods)) = 1) := by
  refine ⟨rfl, ?_, ?_⟩
  · intro r
    refine ⟨rfl, ?_, ?_, ?_⟩
    · simp [obj_ec_split_req_fini, List.count_cons]
    · simp [obj_ec_split_req_fini, List.count_cons]
    · intro e he
      simpa [obj_ec_split_req_fini] using he
  · intro env orw req hrun
    obtain ⟨oiods, bm, tbl, hp, ha, hb, hi, hasm⟩ := split_req_inv hrun
    rw [run_of_ok hp ha hb hi hasm]
    simp [obj_ec_split_req_fini, List.count_cons]

/-- C18 on the four-extent scenario: split, then release. -/
theorem split_req_fini_releases_witness :
    ((obj_ec_rw_req_split env4 (orw4 false)).trace ++
      obj_ec_split_req_fini (obj_ec_rw_req_split env4 (orw4 false)).split_req).count
        .free_buf = 1 ∧
    ((obj_ec_rw_req_split env4 (orw4 false)).trace ++
      obj_ec_split_req_fini (obj_ec_rw_req_split env4 (orw4 false)).split_req).count
        (.tgt_oiod_fini (some req4.osr_tgt_oiods)) = 1 :=
  split_req_fini_releases.2.2 env4 (orw4 false) req4 rfl

end SrvEc

namespace PoolCmds

/-! ## `parse_rank_list` -/

/-- The first piece of a split at commas is the run before the first comma; the
other pieces are those of what follows that comma. -/
theorem splitOn_comma (s : List Char) :
    s.splitOn ',' =
      s.takeWhile (fun x => x != ',') ::
        (match s.dropWhile (fun x => x != ',') with
         | [] => []
         | _ :: rest => rest.splitOn ',') := by
  induction s with
  | nil => rfl
  | cons x xs ih =>
    unfold List.splitOn at ih ⊢
    rw [List.splitOnP_cons]
    by_cases hx : x = ','
    · subst hx
      simp
    · have h1 : (x == ',') = false := by simpa using hx
      have h2 : (x != ',') = true := by simpa using hx
      rw [ih]
      simp [h1, h2, List.modifyHead]

/-- The tokens `strtok` delivers one after the other are the non-empty pieces of
the string. -/
theorem comma_tokens_strtok (s : List Char) :
    comma_tokens s =
      match strtok ',' s with
      | none => []
      | some (token, rest) => token :: comma_tokens rest := by
  induction s with
  | nil => rfl
  | cons c cs ih =>
    by_cases hc : c = ','
    · subst hc
      have h1 : strtok ',' (',' :: cs) = strtok ',' cs := by
        simp [strtok]
      have h2 : comma_tokens (',' :: cs) = comma_tokens cs := by
        unfold comma_tokens List.splitOn
        rw [List.splitOnP_cons]
        simp
      rw [h1, h2, ih]
    · have hb : (c == ',') = false := by simpa using hc
      have hn : (c != ',') = true := by simpa using hc
      have h1 : strtok ',' (c :: cs) =
          some ((c :: cs).takeWhile (fun x => x != ','),
            ((c :: cs).dropWhile (fun x => x != ',')).drop 1) := by
        simp [strtok, hb]
      rw [h1]
      show comma_tokens (c :: cs) = _ :: comma_tokens _
      unfold comma_tokens
      rw [splitOn_comma (c :: cs)]
      have hne : (List.takeWhile (fun x => x != ',') (c :: cs)).isEmpty = false := by
        simp [List.takeWhile, hn]
      rw [List.filter_cons]
      simp only [hne, Bool.not_false, if_true]
      congr 1
      cases hd : List.dropWhile (fun x => x != ',') (c :: cs) with
      | nil => rfl
      | cons d rest => rfl

/-- The ranks the loop stores are those of the first `k` tokens. -/
theorem rank_loop_eq (atoi : List Char → Int) :
    ∀ (k : Nat) (s : List Char),
      rank_loop atoi k (strtok ',' s) =
        ((comma_tokens s).take k).map (fun t => u32_of_int (atoi t)) := by
  intro k
  induction k with
  | zero => intro s; simp [rank_loop]
  | succ k ih =>
    intro s
    rw [comma_tokens_strtok s]
    cases h : strtok ',' s with
    | none => simp [rank_loop]
    | some p =>
      obtain ⟨token, rest⟩ := p
      simp [rank_loop, ih rest]

/-- The length of the local array `rank_list` that the loop filled. -/
theorem rank_loop_length (atoi : List Char → Int) (s : List Char) :
    (rank_loop atoi MAX (strtok ',' s)).length = min (comma_tokens s).length 1000 := by
  rw [rank_loop_eq, List.length_map, List.length_take, Nat.min_comm]
  rfl

/-- The rank list and the messages of a call whose `calloc` succeeds. -/
theorem rl_ranks_eq (atoi : List Char → Int) (s : List Char) :
    (parse_rank_list atoi true s).num_rank_list.rl_ranks =
      some ((rank_loop atoi MAX (strtok ',' s)).take
        (rank_loop atoi MAX (strtok ',' s)).length) := rfl

theorem printed_eq (atoi : List Char → Int) (s : List Char) :
    (parse_rank_list atoi true s).printed =
      if (rank_loop atoi MAX (strtok ',' s)).length ≥ MAX then [warning] else [] := rfl

/-- The number of ranks `parse_rank_list` stores. -/
theorem rl_nr_eq (atoi : List Char → Int) (calloc_ok : Bool) (s : List Char) :
    (parse_rank_list atoi calloc_ok s).num_rank_list.rl_nr =
      min (comma_tokens s).length 1000 := by
  rw [← rank_loop_length atoi s]
  cases calloc_ok <;> rfl

/-- The warning is printed exactly when the loop filled all `MAX` slots. -/
theorem warning_iff (atoi : List Char → Int) (calloc_ok : Bool) (s : List Char) :
    warning ∈ (parse_rank_list atoi calloc_ok s).printed ↔
      1000 ≤ (comma_tokens s).length := by
  unfold parse_rank_list
  have hl := rank_loop_length atoi s
  have hw : warning ≠ "failed allocating pool service rank list" := by decide
  have hM : MAX = 1000 := rfl
  by_cases h : 1000 ≤ (comma_tokens s).length
  · have hge : (rank_loop atoi MAX (strtok ',' s)).length ≥ MAX := by
      rw [hl, hM]; omega
    cases calloc_ok <;> simp [hge, h]
  · have hge : ¬ (rank_loop atoi MAX (strtok ',' s)).length ≥ MAX := by
      rw [hl, hM]; omega
    cases calloc_ok <;> simp [hge, h, hw]

/-- C19. Truncation: for every string, with `n` non-empty comma-separated tokens,
and a succeeding `calloc`, `parse_rank_list` returns 0 and yields a rank list of
length `min n 1000` whose `j`-th rank is the value `atoi` gives for the `j`-th
token, stored as a `uint32_t` (the value itself when it lies in
`[0, 2 ^ 32)`), in input order; the tokens behind the first 1000 leave no
trace in the list. -/
theorem parse_rank_list_truncates (atoi : List Char → Int) (s : List Char) :
    (parse_rank_list atoi true s).rc = 0 ∧
    (parse_rank_list atoi true s).num_rank_list.rl_nr = min (comma_tokens s).length 1000 ∧
    ∃ ranks, (parse_rank_list atoi true s).num_rank_list.rl_ranks = some ranks ∧
      ranks.length = min (comma_tokens s).length 1000 ∧
      ranks = ((comma_tokens s).take 1000).map (fun t => u32_of_int (atoi t)) ∧
      (∀ j, j < min (comma_tokens s).length 1000 →
        ∃ token, (comma_tokens s)[j]? = some token ∧
          ranks[j]? = some (u32_of_int (atoi token)) ∧
          (0 ≤ atoi token → atoi token < 2 ^ 32 →
            (u32_of_int (atoi token) : Int) = atoi token)) := by
  refine ⟨rfl, rl_nr_eq atoi true s, ?_⟩
  have hr : (parse_rank_list atoi true s).num_rank_list.rl_ranks =
      some (((comma_tokens s).take 1000).map (fun t => u32_of_int (atoi t))) := by
    simp [parse_rank_list, rank_loop_eq, MAX]
  refine ⟨_, hr, by simp [Nat.min_comm], rfl, ?_⟩
  intro j hj
  have hjl : j < (comma_tokens s).length := by omega
  have hj1000 : j < 1000 := by omega
  refine ⟨(comma_tokens s)[j], List.getElem?_eq_getElem hjl, ?_, ?_⟩
  · rw [List.getElem?_map, List.getElem?_take]
    simp [hj1000, List.getElem?_eq_getElem hjl]
  · intro h0 h32
    unfold u32_of_int
    rw [Int.emod_eq_of_lt h0 h32]
    exact Int.toNat_of_nonneg h0

/-- C19 on the string `3,,12,7`: three tokens (the empty piece is skipped), the
ranks 3, 12 and 7 in input order. -/
theorem parse_rank_list_truncates_witness :
    comma_tokens ranks_3_12_7 = [['3'], ['1', '2'], ['7']] ∧
    (parse_rank_list atoi_digits true ranks_3_12_7).num_rank_list = ⟨some [3, 12, 7], 3⟩ ∧
    (parse_rank_list atoi_digits true ranks_3_12_7).rc = 0 ∧
    (parse_rank_list atoi_digits true ranks_3_12_7).num_rank_list.rl_nr =
      min (comma_tokens ranks_3_12_7).length 1000 ∧
    ∃ ranks, (parse_rank_list atoi_digits true ranks_3_12_7).num_rank_list.rl_ranks
        = some ranks ∧
      ranks.length = min (comma_tokens ranks_3_12_7).length 1000 ∧
      ranks = ((comma_tokens ranks_3_12_7).take 1000).map
        (fun t => u32_of_int (atoi_digits t)) ∧
      (∀ j, j < min (comma_tokens ranks_3_12_7).length 1000 →
        ∃ token, (comma_tokens ranks_3_12_7)[j]? = some token ∧
          ranks[j]? = some (u32_of_int (atoi_digits token)) ∧
          (0 ≤ atoi_digits token → atoi_digits token < 2 ^ 32 →
            (u32_of_int (atoi_digits token) : Int) = atoi_digits token)) :=
  ⟨by decide, by decide, parse_rank_list_truncates atoi_digits ranks_3_12_7⟩

/-- C20, the code at the failing input: a list of exactly 1000 ranks is parsed
completely (1000 tokens, 1000 ranks stored, none thrown away) and the warning
"rank list exceeded maximum, threw some away" is printed all the same. -/
theorem parse_rank_list_warns_at_exactly_MAX (atoi : List Char → Int) :
    (comma_tokens (sevens 1000)).length = 1000 ∧
    (parse_rank_list atoi true (sevens 1000)).num_rank_list.rl_nr = 1000 ∧
    (parse_rank_list atoi true (sevens 1000)).num_rank_list.rl_ranks =
      some ((comma_tokens (sevens 1000)).map (fun t => u32_of_int (atoi t))) ∧
    (parse_rank_list atoi true (sevens 1000)).printed = [warning] := by
  have htok : ∀ n, comma_tokens (sevens n) = List.replicate n ['7'] := by
    intro n
    induction n with
    | zero => rfl
    | succ n ih =>
      have hs : sevens (n + 1) = '7' :: ',' :: sevens n := by
        simp [sevens, List.replicate_succ]
      rw [comma_tokens_strtok, hs]
      have : strtok ',' ('7' :: ',' :: sevens n) = some (['7'], sevens n) := by
        simp [strtok, List.takeWhile, List.dropWhile]
      rw [this]
      simp [ih, List.replicate_succ]
  have hlen : (comma_tokens (sevens 1000)).length = 1000 := by
    rw [htok, List.length_replicate]
  have hnr := rl_nr_eq atoi true (sevens 1000)
  rw [hlen, Nat.min_self] at hnr
  have hM : MAX = 1000 := rfl
  have hl : (rank_loop atoi MAX (strtok ',' (sevens 1000))).length = 1000 := by
    rw [rank_loop_length, hlen, Nat.min_self]
  have htake : (comma_tokens (sevens 1000)).take MAX = comma_tokens (sevens 1000) := by
    apply List.take_of_length_le
    rw [hlen, hM]
  have hge : (rank_loop atoi MAX (strtok ',' (sevens 1000))).length ≥ MAX := by
    rw [hl, hM]
  refine ⟨hlen, hnr, ?_, ?_⟩
  · rw [rl_ranks_eq, List.take_length, rank_loop_eq, htake]
  · rw [printed_eq, if_pos hge]

/-! ## `parse_size` -/

/-- C21 fails as stated: for the argument `10kb` the number is 10 and the
trailing text `kb` is none of the unit suffixes, yet the value stored is
`10 * 2 ^ 10`, not 10. -/
theorem parse_size_counterexample :
    strtoul_digits ['1', '0', 'k', 'b'] = (10, ['k', 'b']) ∧
    ['k', 'b'] ≠ [] ∧ ['k', 'b'] ∉ unit_suffixes ∧
    (parse_size strtoul_digits ['1', '0', 'k', 'b']).rc = 0 ∧
    (parse_size strtoul_digits ['1', '0', 'k', 'b']).size = 10240 ∧
    (parse_size strtoul_digits ['1', '0', 'k', 'b']).size ≠ 10 := by
  refine ⟨by decide, by decide, by decide, by decide, by decide, by decide⟩

/-- The switch of `parse_size` as a function of the value and of `*unit`. -/
theorem parse_size_eq (strtoul : List Char → Nat × List Char) (arg : List Char) :
    parse_size strtoul arg =
      ⟨0, if deref (strtoul arg).2 = '\x00' then (strtoul arg).1 % 2 ^ 64
          else if deref (strtoul arg).2 = 'k' ∨ deref (strtoul arg).2 = 'K' then
            ((strtoul arg).1 % 2 ^ 64) <<< 10 % 2 ^ 64
          else if deref (strtoul arg).2 = 'm' ∨ deref (strtoul arg).2 = 'M' then
            ((strtoul arg).1 % 2 ^ 64) <<< 20 % 2 ^ 64
          else if deref (strtoul arg).2 = 'g' ∨ deref (strtoul arg).2 = 'G' then
            ((strtoul arg).1 % 2 ^ 64) <<< 30 % 2 ^ 64
          else (strtoul arg).1 % 2 ^ 64⟩ := by
  unfold parse_size
  dsimp only
  split_ifs <;> rfl

/-- C21 as amended. When `strtoul` returns `n` (an `unsigned long`, below
`2 ^ 64`) and leaves `unit` at the text `rest`, `parse_size` returns 0 and the
value stored is decided by the first character of `rest` alone: `n` when `rest`
is empty, `n * 2 ^ 10` for `k` or `K`, `n * 2 ^ 20` for `m` or `M`, `n * 2 ^ 30`
for `g` or `G` (modulo `2 ^ 64`), whatever follows that character, and `n` when
`rest` begins with any other character. -/
theorem parse_size_first_char
    (strtoul : List Char → Nat × List Char) (arg : List Char) (n : Nat) (rest : List Char)
    (hs : strtoul arg = (n, rest)) (hn : n < 2 ^ 64) :
    (parse_size strtoul arg).rc = 0 ∧
    (rest = [] → (parse_size strtoul arg).size = n) ∧
    (∀ c tl, rest = c :: tl →
      ((c = 'k' ∨ c = 'K') → (parse_size strtoul arg).size = n * 2 ^ 10 % 2 ^ 64) ∧
      ((c = 'm' ∨ c = 'M') → (parse_size strtoul arg).size = n * 2 ^ 20 % 2 ^ 64) ∧
      ((c = 'g' ∨ c = 'G') → (parse_size strtoul arg).size = n * 2 ^ 30 % 2 ^ 64) ∧
      (c ≠ 'k' → c ≠ 'K' → c ≠ 'm' → c ≠ 'M' → c ≠ 'g' → c ≠ 'G' →
        (parse_size strtoul arg).size = n)) := by
  have h1 : (strtoul arg).1 % 2 ^ 64 = n := by
    rw [hs]
    exact Nat.mod_eq_of_lt hn
  rw [parse_size_eq, h1]
  refine ⟨rfl, ?_, ?_⟩
  · intro hr
    have hd : deref (strtoul arg).2 = '\x00' := by rw [hs, hr]; rfl
    show (if _ then _ else _) = n
    rw [if_pos hd]
  · intro c tl hr
    have hd : deref (strtoul arg).2 = c := by rw [hs, hr]; rfl
    rw [hd]
    refine ⟨?_, ?_, ?_, ?_⟩
    · intro hc
      have h0 : c ≠ '\x00' := by rcases hc with rfl | rfl <;> decide
      show (if _ then _ else _) = _
      rw [if_neg h0, if_pos hc, Nat.shiftLeft_eq]
    · intro hc
      have h0 : c ≠ '\x00' := by rcases hc with rfl | rfl <;> decide
      have hk : ¬ (c = 'k' ∨ c = 'K') := by rcases hc with rfl | rfl <;> decide
      show (if _ then _ else _) = _
      rw [if_neg h0, if_neg hk, if_pos hc, Nat.shiftLeft_eq]
    · intro hc
      have h0 : c ≠ '\x00' := by rcases hc with rfl | rfl <;> decide
      have hk : ¬ (c = 'k' ∨ c = 'K') := by rcases hc with rfl | rfl <;> decide
      have hm : ¬ (c = 'm' ∨ c = 'M') := by rcases hc with rfl | rfl <;> decide
      show (if _ then _ else _) = _
      rw [if_neg h0, if_neg hk, if_neg hm, if_pos hc, Nat.shiftLeft_eq]
    · intro a1 a2 a3 a4 a5 a6
      have hk : ¬ (c = 'k' ∨ c = 'K') := by rintro (h | h) <;> contradiction
      have hm : ¬ (c = 'm' ∨ c = 'M') := by rintro (h | h) <;> contradiction
      have hg : ¬ (c = 'g' ∨ c = 'G') := by rintro (h | h) <;> contradiction
      show (if _ then _ else _) = _
      rw [if_neg hk, if_neg hm, if_neg hg]
      split <;> rfl

/-- C21 as amended, on `10g`: the value stored is 10737418240. -/
theorem parse_size_first_char_witness :
    (parse_size strtoul_digits ['1', '0', 'g']).size = 10737418240 ∧
    (parse_size strtoul_digits ['1', '0', 'g']).rc = 0 ∧
    (['g'] = [] → (parse_size strtoul_digits ['1', '0', 'g']).size = 10) ∧
    (∀ c tl, ['g'] = c :: tl →
      ((c = 'k' ∨ c = 'K') →
        (parse_size strtoul_digits ['1', '0', 'g']).size = 10 * 2 ^ 10 % 2 ^ 64) ∧
      ((c = 'm' ∨ c = 'M') →
        (parse_size strtoul_digits ['1', '0', 'g']).size = 10 * 2 ^ 20 % 2 ^ 64) ∧
      ((c = 'g' ∨ c = 'G') →
        (parse_size strtoul_digits ['1', '0', 'g']).size = 10 * 2 ^ 30 % 2 ^ 64) ∧
      (c ≠ 'k' → c ≠ 'K' → c ≠ 'm' → c ≠ 'M' → c ≠ 'g' → c ≠ 'G' →
        (parse_size strtoul_digits ['1', '0', 'g']).size = 10)) :=
  ⟨by decide,
   parse_size_first_char strtoul_digits ['1', '0', 'g'] 10 ['g'] (by decide) (by decide)⟩

end PoolCmds
